import Mathlib

/-!
# TPC-H Query 5 engine (`query5.cpp`): embedding and verified properties

The C++ program is embedded shallowly.

* `std::string` is `String` (the tables are ASCII text, one character per byte);
  comparison is the lexicographic order of `String`.
* A row `std::map<std::string, std::string>` and an index
  `std::unordered_map<std::string, std::string>` are association lists that are only
  ever probed by key (`mapFind`, `mapCount`, `mapAt`) or assigned (`mapAssign`).
* The result `std::map<std::string, double>` is an association list kept in strictly
  increasing key order (`Results`, `addAt`), which is the iteration order of `std::map`.
* `double` is replaced by exact rationals; `std::stod` is a parameter `stod` of the
  embedding (`none` stands for `std::invalid_argument`).
* `int` is `Int` with explicit 32-bit wrap-around (`toInt`), `size_t` is `Nat` with the
  conversion `toSizeT` (reduction modulo `2 ^ 64`).
* Exceptions (which are never caught, so they end the run) and undefined behaviour are
  the `Except.error` results of the embedded functions.
* `splitAndTrim` works on the characters of the line; `outputResults` returns the lines
  it writes, with the opening of the file and the formatting of a revenue as
  parameters.
* Workers only read the shared indexes and touch the shared map in one critical
  section, so a run is a sequence of worker merges; `executeQuery5` runs them in the
  order in which the threads were created.
-/

namespace Query5

/-! ## Data model -/

/-- Abnormal terminations of the C++ code. -/
inductive Err
  | out_of_range
  | invalid_argument
  | div_by_zero
  | bad_index
  deriving DecidableEq

deriving instance DecidableEq for Except

/-- One loaded record: `std::map<std::string, std::string>`. -/
abbrev Row := List (String × String)

/-- One loaded table: `std::vector<std::map<std::string, std::string>>`. -/
abbrev Table := List Row

/-- A hash index: `std::unordered_map<std::string, std::string>`. -/
abbrev Index := List (String × String)

/-- The grouped totals: `std::map<std::string, double>` over exact arithmetic. -/
abbrev Results := List (String × ℚ)

/-- Value bound to key `k`, if any. -/
def mapFind {β : Type} : List (String × β) → String → Option β
  | [], _ => none
  | (k', v) :: t, k => if k' = k then some v else mapFind t k

/-- Member function `count(k)` as a truth value. -/
def mapCount {β : Type} (m : List (String × β)) (k : String) : Bool :=
  (mapFind m k).isSome

/-- Member function `at(k)`: throws `std::out_of_range` on a missing key. -/
def mapAt {β : Type} (m : List (String × β)) (k : String) : Except Err β :=
  match mapFind m k with
  | some v => .ok v
  | none => .error .out_of_range

/-- Assignment `m[k] = v` on an index: overwrite the binding of `k` or create it. -/
def mapAssign : Index → String → String → Index
  | [], k, v => [(k, v)]
  | (k', x) :: t, k, v => if k' = k then (k', v) :: t else (k', x) :: mapAssign t k v

/-- Compound assignment `m[k] += v` on a result map: a missing key is created with
value `0` at its place in key order before `v` is added. -/
def addAt : Results → String → ℚ → Results
  | [], k, v => [(k, 0 + v)]
  | (k', x) :: t, k, v =>
    if k = k' then (k', x + v) :: t
    else if k < k' then (k, 0 + v) :: (k', x) :: t
    else (k', x) :: addAt t k v

/-- Keys of a result map are strictly increasing: the representation invariant of
`std::map`. -/
def Sorted (m : Results) : Prop := m.Pairwise (fun a b => a.1 < b.1)

/-- `s.substr(0, n)`. -/
def substr0 (s : String) (n : Nat) : String := ⟨s.data.take n⟩

/-- Conversion of an integer value to `int` (32-bit two's complement). -/
def toInt (x : Int) : Int := (x + 2 ^ 31) % 2 ^ 32 - 2 ^ 31

/-- Conversion of an integer value to `size_t` (64-bit unsigned). -/
def toSizeT (x : Int) : Nat := (x % 2 ^ 64).toNat

/-- Element access `v[i]` with an `int` index; outside the vector it is undefined. -/
def vecAt {α : Type} (v : List α) (i : Int) : Except Err α :=
  match v[toSizeT i]? with
  | some x => .ok x
  | none => .error .bad_index

/-- Call of `std::stod`. -/
def stodE (stod : String → Option ℚ) (s : String) : Except Err ℚ :=
  match stod s with
  | some q => .ok q
  | none => .error .invalid_argument

/-- An instance of `std::stod` on plain decimal literals (leading blanks, a sign,
digits, a fractional part; whatever follows is ignored), used for concrete runs. -/
def stodDecimal (s : String) : Option ℚ :=
  let cs := s.data.dropWhile (fun c => c = ' ' ∨ c = '\t' ∨ c = '\n' ∨ c = '\r')
  let neg := match cs with
    | '-' :: _ => true
    | _ => false
  let cs := match cs with
    | '-' :: t => t
    | '+' :: t => t
    | _ => cs
  let ip := cs.takeWhile Char.isDigit
  let fp := match cs.dropWhile Char.isDigit with
    | '.' :: t => t.takeWhile Char.isDigit
    | _ => []
  if ip.isEmpty && fp.isEmpty then none
  else
    let n := (ip ++ fp).foldl (fun a c => 10 * a + (c.toNat - 48)) 0
    let q : ℚ := mkRat n (10 ^ fp.length)
    some (if neg then -q else q)

/-! ## `splitAndTrim` -/

/-- Membership in the character set `" \t\r\n"` that is trimmed. -/
def isTrimChar (c : Char) : Bool :=
  c = ' ' || c = '\t' || c = '\r' || c = '\n'

/-- `token.find_first_not_of(" \t\r\n")`; `none` is `npos`. -/
def findFirstNotOf : List Char → Option Nat
  | [] => none
  | c :: cs => if isTrimChar c then (findFirstNotOf cs).map (· + 1) else some 0

/-- `token.find_last_not_of(" \t\r\n")`; `none` is `npos`. -/
def findLastNotOf : List Char → Option Nat
  | [] => none
  | c :: cs =>
    match findLastNotOf cs with
    | some i => some (i + 1)
    | none => if isTrimChar c then none else some 0

/-- Trimming of one token (lines 22-25): `erase(0, first)`, where `npos` erases the
whole token, then `erase(last + 1)` when a last position is found. -/
def trimToken (token : List Char) : List Char :=
  let token := match findFirstNotOf token with
    | some first => token.drop first
    | none => []
  match findLastNotOf token with
  | some last => token.take (last + 1)
  | none => token

/-- The tokens that the loop `while (std::getline(ss, token, '|'))` reads: `rest` is the
unread input and `token` the characters extracted so far. At the end of the input
`getline` succeeds only if it extracted something. -/
def getlineLoop : List Char → List Char → List (List Char)
  | [], token => if token = [] then [] else [token]
  | c :: rest, token =>
    if c = '|' then token :: getlineLoop rest [] else getlineLoop rest (token ++ [c])

/-- The function `splitAndTrim` (lines 14-29). -/
def splitAndTrim (line : String) : List String :=
  (getlineLoop line.data []).map (fun token => String.mk (trimToken token))

/-- The `|`-delimited fields as the stream loop yields them: a final empty field, after
a closing `|` or in an empty line, is not produced. -/
def dropFinalEmpty (parts : List (List Char)) : List (List Char) :=
  if parts.getLast? = some [] then parts.dropLast else parts

/-- Specification § 6: a field with the leading and trailing characters of the set
removed. -/
def trimSpec (field : List Char) : List Char :=
  (field.dropWhile isTrimChar).rdropWhile isTrimChar

/-! ## `queryWorker` -/

/-- Body of the scan loop of `queryWorker` (lines 111-132) for the line item `li`. -/
def scanItem (stod : String → Option ℚ) (target_r_key : String)
    (order_to_cust cust_to_nation supp_to_nation nation_to_name nation_to_region : Index)
    (local_results : Results) (li : Row) : Except Err Results := do
  let o_key ← mapAt li "l_orderkey"
  if mapCount order_to_cust o_key then
    let c_key ← mapAt order_to_cust o_key
    let s_key ← mapAt li "l_suppkey"
    if mapCount cust_to_nation c_key && mapCount supp_to_nation s_key then
      let c_nat ← mapAt cust_to_nation c_key
      let s_nat ← mapAt supp_to_nation s_key
      if c_nat = s_nat ∧ mapCount nation_to_region c_nat = true then
        let r ← mapAt nation_to_region c_nat
        if r = target_r_key then
          let price ← stodE stod (← mapAt li "l_extendedprice")
          let disc ← stodE stod (← mapAt li "l_discount")
          let name ← mapAt nation_to_name c_nat
          pure (addAt local_results name (price * (1 - disc)))
        else pure local_results
      else pure local_results
    else pure local_results
  else pure local_results

/-- Scan loop of `queryWorker`: `n` iterations remain and the loop variable is `i`. -/
def scanLoop (stod : String → Option ℚ) (target_r_key : String) (lineitem_data : Table)
    (order_to_cust cust_to_nation supp_to_nation nation_to_name nation_to_region : Index) :
    Nat → Int → Results → Except Err Results
  | 0, _, local_results => pure local_results
  | n + 1, i, local_results => do
    let li ← vecAt lineitem_data i
    let next ← scanItem stod target_r_key order_to_cust cust_to_nation supp_to_nation
      nation_to_name nation_to_region local_results li
    scanLoop stod target_r_key lineitem_data order_to_cust cust_to_nation supp_to_nation
      nation_to_name nation_to_region n (toInt (i + 1)) next

/-- Merge step of `queryWorker` (lines 135-139). -/
def mergeInto (results local_results : Results) : Results :=
  local_results.foldl (fun acc e => addAt acc e.1 e.2) results

/-- The worker: scan the line items `start ≤ i < end` into a local map, then merge it
into the shared map. -/
def queryWorker (stod : String → Option ℚ) (start end_ : Int) (target_r_key : String)
    (lineitem_data : Table)
    (order_to_cust cust_to_nation supp_to_nation nation_to_name nation_to_region : Index)
    (results : Results) : Except Err Results := do
  let local_results ← scanLoop stod target_r_key lineitem_data order_to_cust cust_to_nation
    supp_to_nation nation_to_name nation_to_region (end_ - start).toNat start []
  pure (mergeInto results local_results)

/-! ## `executeQuery5` -/

/-- Region scan (lines 151-156), started from `target_r_key`. -/
def resolveRegion (r_name : String) : Table → String → Except Err String
  | [], target_r_key => pure target_r_key
  | r :: rest, target_r_key => do
    let name ← mapAt r "r_name"
    if name = r_name then
      let key ← mapAt r "r_regionkey"
      resolveRegion r_name rest key
    else resolveRegion r_name rest target_r_key

/-- Nation loop (lines 165-169), from the two maps built so far. -/
def buildNation : Table → Index × Index → Except Err (Index × Index)
  | [], maps => pure maps
  | n :: rest, (nation_to_name, nation_to_region) => do
    let name ← mapAt n "n_name"
    let key ← mapAt n "n_nationkey"
    let region ← mapAt n "n_regionkey"
    let key2 ← mapAt n "n_nationkey"
    buildNation rest (mapAssign nation_to_name key name, mapAssign nation_to_region key2 region)

/-- Customer and supplier loops (lines 172-175): index `key_field` to `value_field`. -/
def buildIndex (key_field value_field : String) : Table → Index → Except Err Index
  | [], index => pure index
  | row :: rest, index => do
    let value ← mapAt row value_field
    let key ← mapAt row key_field
    buildIndex key_field value_field rest (mapAssign index key value)

/-- Order loop (lines 177-188): index the orders dated in `[start_date, end_date)`. -/
def buildOrders (start_date end_date : String) : Table → Index → Except Err Index
  | [], order_to_cust => pure order_to_cust
  | o :: rest, order_to_cust =>
    if mapCount o "o_orderdate" then do
      let o_date ← mapAt o "o_orderdate"
      if start_date ≤ substr0 o_date 10 ∧ substr0 o_date 10 < end_date then
        let cust ← mapAt o "o_custkey"
        let key ← mapAt o "o_orderkey"
        buildOrders start_date end_date rest (mapAssign order_to_cust key cust)
      else buildOrders start_date end_date rest order_to_cust
    else buildOrders start_date end_date rest order_to_cust

/-- Chunk size (lines 193-194) for a table of `size` line items. -/
def chunkSize (size : Nat) (num_threads : Int) : Except Err Int :=
  if toSizeT num_threads = 0 then .error .div_by_zero
  else
    let chunk_size := toInt (size / toSizeT num_threads : Nat)
    pure (if chunk_size = 0 then toInt size else chunk_size)

/-- Thread-creation loop (lines 196-206): the `(start, end)` pairs handed to the workers
that are started, in creation order; `n` iterations remain and the loop variable is `i`. -/
def spawnLoop (size : Nat) (num_threads chunk_size : Int) : Nat → Int → List (Int × Int)
  | 0, _ => []
  | n + 1, i =>
    let start := toInt (i * chunk_size)
    let end_ := if i = num_threads - 1 then toInt size else toInt ((i + 1) * chunk_size)
    if size ≤ toSizeT start then []
    else (start, end_) :: spawnLoop size num_threads chunk_size n (i + 1)

/-- The workers of `threads` run to completion, merging one after the other. -/
def runWorkers (stod : String → Option ℚ) (target_r_key : String) (lineitem_data : Table)
    (order_to_cust cust_to_nation supp_to_nation nation_to_name nation_to_region : Index) :
    List (Int × Int) → Results → Except Err Results
  | [], results => pure results
  | (start, end_) :: threads, results => do
    let merged ← queryWorker stod start end_ target_r_key lineitem_data order_to_cust
      cust_to_nation supp_to_nation nation_to_name nation_to_region results
    runWorkers stod target_r_key lineitem_data order_to_cust cust_to_nation supp_to_nation
      nation_to_name nation_to_region threads merged

/-- The query: the returned pair is the `bool` result and the final state of the
`results` reference parameter. -/
def executeQuery5 (stod : String → Option ℚ) (r_name start_date end_date : String)
    (num_threads : Int)
    (customer_data orders_data lineitem_data supplier_data nation_data region_data : Table)
    (results : Results) : Except Err (Bool × Results) := do
  let target_r_key ← resolveRegion r_name region_data ""
  if target_r_key = "" then pure (false, results)
  else
    let (nation_to_name, nation_to_region) ← buildNation nation_data ([], [])
    let cust_to_nation ← buildIndex "c_custkey" "c_nationkey" customer_data []
    let supp_to_nation ← buildIndex "s_suppkey" "s_nationkey" supplier_data []
    let order_to_cust ← buildOrders start_date end_date orders_data []
    let chunk_size ← chunkSize lineitem_data.length num_threads
    let threads := spawnLoop lineitem_data.length num_threads chunk_size num_threads.toNat 0
    let final ← runWorkers stod target_r_key lineitem_data order_to_cust cust_to_nation
      supp_to_nation nation_to_name nation_to_region threads results
    pure (true, final)

/-! ## Sequential reference for the scan -/

/-- The scan-loop body folded over a list of line items, in list order. -/
def scanList (stod : String → Option ℚ) (target_r_key : String)
    (order_to_cust cust_to_nation supp_to_nation nation_to_name nation_to_region : Index) :
    List Row → Results → Except Err Results
  | [], acc => pure acc
  | li :: rest, acc => do
    let next ← scanItem stod target_r_key order_to_cust cust_to_nation supp_to_nation
      nation_to_name nation_to_region acc li
    scanList stod target_r_key order_to_cust cust_to_nation supp_to_nation nation_to_name
      nation_to_region rest next

/-- The `(name, revenue)` additions the scan-loop body performs over a list of line
items, in list order: each item adds what the body adds to an empty accumulator. -/
def contribs (stod : String → Option ℚ) (target_r_key : String)
    (order_to_cust cust_to_nation supp_to_nation nation_to_name nation_to_region : Index) :
    List Row → Except Err (List (String × ℚ))
  | [] => pure []
  | li :: rest => do
    let c ← scanItem stod target_r_key order_to_cust cust_to_nation supp_to_nation
      nation_to_name nation_to_region [] li
    let cs ← contribs stod target_r_key order_to_cust cust_to_nation supp_to_nation
      nation_to_name nation_to_region rest
    pure (c ++ cs)

/-- Sum of the values listed under key `k`. -/
def keyTotal (cs : List (String × ℚ)) (k : String) : ℚ :=
  ((cs.filter (fun e => e.1 = k)).map Prod.snd).sum

/-- The chunk list `chunks` tiles the index range from `a` up to `size`: each chunk
starts where the previous one ended, is non-empty, and the last one ends at `size`. -/
def covers : Nat → List (Int × Int) → Nat → Prop
  | a, [], size => a = size
  | a, (start, end_) :: rest, size =>
    start = (a : Int) ∧ ∃ b : Nat, end_ = (b : Int) ∧ a < b ∧ b ≤ size ∧ covers b rest size

/-- Single-scan reference run: resolve the region, build the indexes, add the
contribution of every line item in table order to `results`. -/
def referenceQuery5 (stod : String → Option ℚ) (r_name start_date end_date : String)
    (customer_data orders_data lineitem_data supplier_data nation_data region_data : Table)
    (results : Results) : Except Err (Bool × Results) := do
  let target_r_key ← resolveRegion r_name region_data ""
  if target_r_key = "" then pure (false, results)
  else
    let (nation_to_name, nation_to_region) ← buildNation nation_data ([], [])
    let cust_to_nation ← buildIndex "c_custkey" "c_nationkey" customer_data []
    let supp_to_nation ← buildIndex "s_suppkey" "s_nationkey" supplier_data []
    let order_to_cust ← buildOrders start_date end_date orders_data []
    let cs ← contribs stod target_r_key order_to_cust cust_to_nation supp_to_nation
      nation_to_name nation_to_region lineitem_data
    pure (true, mergeInto results cs)

/-! ## Specification-side definitions -/

/-- Row `r` carries every field listed in `fields`. -/
def hasFields (r : Row) (fields : List String) : Bool :=
  fields.all (fun f => mapCount r f)

/-- Every row of every table carries the fields the query reads from it, and the price
and discount of every line item are numeric. -/
def wellFormed (stod : String → Option ℚ)
    (customer_data orders_data lineitem_data supplier_data nation_data : Table) : Prop :=
  (∀ c ∈ customer_data, hasFields c ["c_custkey", "c_nationkey"] = true) ∧
  (∀ o ∈ orders_data, hasFields o ["o_orderkey", "o_custkey", "o_orderdate"] = true) ∧
  (∀ li ∈ lineitem_data,
    hasFields li ["l_orderkey", "l_suppkey", "l_extendedprice", "l_discount"] = true ∧
    ((mapFind li "l_extendedprice").bind stod).isSome = true ∧
    ((mapFind li "l_discount").bind stod).isSome = true) ∧
  (∀ s ∈ supplier_data, hasFields s ["s_suppkey", "s_nationkey"] = true) ∧
  (∀ n ∈ nation_data, hasFields n ["n_nationkey", "n_name", "n_regionkey"] = true)

/-- Specification § 4.3, checks 1-5: the nation key under which the line item `li`
qualifies, if it does. The order key must be in `order_to_cust`, the customer in
`cust_to_nation`, the supplier in `supp_to_nation`, both nations must be the same key,
and `nation_to_region` must send that key to the target region. -/
def joinNation (target_r_key : String)
    (order_to_cust cust_to_nation supp_to_nation nation_to_region : Index) (li : Row) :
    Option String :=
  (mapFind li "l_orderkey").bind fun o_key =>
  (mapFind order_to_cust o_key).bind fun c_key =>
  (mapFind cust_to_nation c_key).bind fun c_nat =>
  (mapFind li "l_suppkey").bind fun s_key =>
  (mapFind supp_to_nation s_key).bind fun s_nat =>
  if c_nat = s_nat ∧ mapFind nation_to_region c_nat = some target_r_key then some c_nat
  else none

/-- Specification § 4.3: the display name of the nation under which `li` qualifies. -/
def joinName (target_r_key : String)
    (order_to_cust cust_to_nation supp_to_nation nation_to_name nation_to_region : Index)
    (li : Row) : Option String :=
  (joinNation target_r_key order_to_cust cust_to_nation supp_to_nation nation_to_region li).bind
    (mapFind nation_to_name)

/-- Specification § 4.3: `extended_price * (1 - discount)` of a line item. -/
def lineRevenue (stod : String → Option ℚ) (li : Row) : ℚ :=
  match (mapFind li "l_extendedprice").bind stod, (mapFind li "l_discount").bind stod with
  | some price, some disc => price * (1 - disc)
  | _, _ => 0

/-- Specification § 3: the total of nation name `X` is the sum of the revenue of the line
items that qualify under a nation named `X`. -/
def specTotal (stod : String → Option ℚ) (target_r_key : String)
    (order_to_cust cust_to_nation supp_to_nation nation_to_name nation_to_region : Index)
    (lineitem_data : Table) (X : String) : ℚ :=
  ((lineitem_data.filter (fun li =>
      decide (joinName target_r_key order_to_cust cust_to_nation supp_to_nation nation_to_name
        nation_to_region li = some X))).map (lineRevenue stod)).sum

/-- What a qualifying line item adds to the totals: its nation name and revenue. -/
def itemEntry (stod : String → Option ℚ) (target_r_key : String)
    (order_to_cust cust_to_nation supp_to_nation nation_to_name nation_to_region : Index)
    (li : Row) : List (String × ℚ) :=
  match joinName target_r_key order_to_cust cust_to_nation supp_to_nation nation_to_name
      nation_to_region li with
  | some X => [(X, lineRevenue stod li)]
  | none => []

/-- Specification § 4.1: the key of the last region row, in table order, whose name is
`r_name`. -/
def lastMatch (r_name : String) (region_data : Table) : Option String :=
  ((region_data.filter (fun r => decide (mapFind r "r_name" = some r_name))).getLast?).bind
    (fun r => mapFind r "r_regionkey")

/-- Specification § 4.2: the date field of the order is present and its first 10
characters `p` satisfy `start_date ≤ p < end_date`. -/
def inWindow (start_date end_date : String) (o : Row) : Bool :=
  match mapFind o "o_orderdate" with
  | some d => decide (start_date ≤ substr0 d 10 ∧ substr0 d 10 < end_date)
  | none => false

/-- The merge steps of the workers whose local maps are `locals`, executed in list
order on the shared map. -/
def mergeAll (shared : Results) (locals : List Results) : Results :=
  locals.foldl mergeInto shared

/-! ## `outputResults` -/

/-- Writing of the result file (lines 212-221): the returned pair is the `bool` result
and the lines written, in the key order of the map. `opened` tells whether the output
file could be opened and `fmt` is the fixed-point formatting of a revenue with two
fraction digits. -/
def outputResults (fmt : ℚ → String) (opened : Bool) (results : Results) :
    Bool × List String :=
  if !opened then (false, [])
  else (true, results.map (fun e => e.1 ++ "|" ++ fmt e.2))

/-! ## Concrete data for evaluation -/

def regionEx : Table := [[("r_regionkey", "2"), ("r_name", "ASIA")]]
def nationEx : Table := [[("n_nationkey", "8"), ("n_name", "INDIA"), ("n_regionkey", "2")]]
def customerEx : Table := [[("c_custkey", "7"), ("c_nationkey", "8")]]
def supplierEx : Table := [[("s_suppkey", "5"), ("s_nationkey", "8")]]
def ordersEx : Table :=
  [[("o_orderkey", "1"), ("o_custkey", "7"), ("o_orderdate", "1994-01-01")]]
def lineitemEx : Table :=
  [[("l_orderkey", "1"), ("l_suppkey", "5"), ("l_extendedprice", "100"), ("l_discount", "0.1")]]
def lineitemEx3 : Table :=
  [[("l_orderkey", "1"), ("l_suppkey", "5"), ("l_extendedprice", "100"), ("l_discount", "0.1")],
   [("l_orderkey", "9"), ("l_suppkey", "5"), ("l_extendedprice", "40"), ("l_discount", "0")],
   [("l_orderkey", "1"), ("l_suppkey", "5"), ("l_extendedprice", "10"), ("l_discount", "0.5")]]

def regionBlank : Table := [[("r_regionkey", ""), ("r_name", "ASIA")]]
def ordersBadDate : Table :=
  [[("o_orderkey", "1"), ("o_custkey", "7"), ("o_orderdate", "1994-13-45")]]
def ordersBoundary : Table :=
  [[("o_orderkey", "1"), ("o_custkey", "7"), ("o_orderdate", "1994-01-01")],
   [("o_orderkey", "2"), ("o_custkey", "7"), ("o_orderdate", "1995-01-01")],
   [("o_orderkey", "3"), ("o_custkey", "7")]]
def lineitemShort : Table := [[("l_orderkey", "1")]]
def lineitemBadPrice : Table :=
  [[("l_orderkey", "1"), ("l_suppkey", "5"), ("l_extendedprice", "abc"), ("l_discount", "0.1")]]
def nationShort : Table := [[("n_nationkey", "8")]]
def supplierEx2 : Table :=
  [[("s_suppkey", "5"), ("s_nationkey", "8")], [("s_suppkey", "6"), ("s_nationkey", "9")]]
def itemQualifying : Row :=
  [("l_orderkey", "1"), ("l_suppkey", "5"), ("l_extendedprice", "100"), ("l_discount", "0.1")]
def itemDangling : Row :=
  [("l_orderkey", "9"), ("l_suppkey", "5"), ("l_extendedprice", "40"), ("l_discount", "0")]
def itemCross : Row :=
  [("l_orderkey", "1"), ("l_suppkey", "6"), ("l_extendedprice", "40"), ("l_discount", "0")]
def regionEx2 : Table :=
  [[("r_regionkey", "2"), ("r_name", "ASIA")], [("r_regionkey", "3"), ("r_name", "EUROPE")]]

/-! ## Result maps -/

theorem mapFind_none_of_lt {m : Results} {k : String} (h : ∀ e ∈ m, k < e.1) :
    mapFind m k = none := by
  induction m with
  | nil => rfl
  | cons e t ih =>
    obtain ⟨k', x⟩ := e
    have h1 : k < k' := h (k', x) (List.mem_cons_self _ _)
    have h2 : k' ≠ k := fun hh => by rw [hh] at h1; exact lt_irrefl _ h1
    simp only [mapFind, if_neg h2]
    exact ih (fun e he => h e (List.mem_cons_of_mem _ he))

theorem addAt_key_mem {m : Results} {k : String} {v : ℚ} {e : String × ℚ}
    (he : e ∈ addAt m k v) : e.1 = k ∨ ∃ e' ∈ m, e'.1 = e.1 := by
  induction m with
  | nil =>
    simp only [addAt, List.mem_singleton] at he
    left; rw [he]
  | cons a t ih =>
    obtain ⟨k', x⟩ := a
    simp only [addAt] at he
    split_ifs at he with h1 h2
    · rcases List.mem_cons.1 he with h | h
      · right; exact ⟨(k', x), List.mem_cons_self _ _, by rw [h]⟩
      · right; exact ⟨e, List.mem_cons_of_mem _ h, rfl⟩
    · rcases List.mem_cons.1 he with h | h
      · left; rw [h]
      · right; exact ⟨e, h, rfl⟩
    · rcases List.mem_cons.1 he with h | h
      · right; exact ⟨(k', x), List.mem_cons_self _ _, by rw [h]⟩
      · rcases ih h with h | ⟨e', he', h⟩
        · left; exact h
        · right; exact ⟨e', List.mem_cons_of_mem _ he', h⟩

theorem addAt_sorted {m : Results} (k : String) (v : ℚ) (h : Sorted m) :
    Sorted (addAt m k v) := by
  induction m with
  | nil => simp [addAt, Sorted]
  | cons a t ih =>
    obtain ⟨k', x⟩ := a
    have ht : Sorted t := (List.pairwise_cons.1 h).2
    have hh : ∀ e ∈ t, k' < e.1 := (List.pairwise_cons.1 h).1
    simp only [addAt]
    split_ifs with h1 h2
    · exact List.pairwise_cons.2 ⟨hh, ht⟩
    · refine List.pairwise_cons.2 ⟨?_, h⟩
      intro e he
      rcases List.mem_cons.1 he with h | h
      · rw [h]; exact h2
      · exact lt_trans h2 (hh e h)
    · refine List.pairwise_cons.2 ⟨?_, ih ht⟩
      intro e he
      rcases addAt_key_mem he with h | ⟨e', he', h⟩
      · rw [h]
        rcases lt_trichotomy k k' with h3 | h3 | h3
        · exact absurd h3 h2
        · exact absurd h3 h1
        · exact h3
      · rw [← h]; exact hh e' he'

theorem mapFind_addAt {m : Results} (h : Sorted m) (k j : String) (v : ℚ) :
    mapFind (addAt m k v) j
      = if j = k then some ((mapFind m k).getD 0 + v) else mapFind m j := by
  induction m with
  | nil =>
    simp only [addAt, mapFind]
    by_cases hj : j = k
    · simp [hj]
    · simp [hj, Ne.symm hj]
  | cons a t ih =>
    obtain ⟨k', x⟩ := a
    have ht : Sorted t := (List.pairwise_cons.1 h).2
    have hh : ∀ e ∈ t, k' < e.1 := (List.pairwise_cons.1 h).1
    have ih := ih ht
    simp only [addAt]
    by_cases h1 : k = k'
    · subst h1
      rw [if_pos rfl]
      by_cases hj : j = k
      · subst hj; simp [mapFind]
      · simp [mapFind, hj, Ne.symm hj]
    · rw [if_neg h1]
      by_cases h2 : k < k'
      · rw [if_pos h2]
        have hnone : mapFind ((k', x) :: t) k = none :=
          mapFind_none_of_lt (fun e he => by
            rcases List.mem_cons.1 he with h | h
            · rw [h]; exact h2
            · exact lt_trans h2 (hh e h))
        by_cases hj : j = k
        · subst hj
          rw [hnone]; simp [mapFind]
        · rw [if_neg hj]
          show mapFind ((k, 0 + v) :: (k', x) :: t) j = _
          rw [mapFind, if_neg (Ne.symm hj)]
      · rw [if_neg h2]
        show mapFind ((k', x) :: addAt t k v) j = _
        by_cases hj : j = k
        · subst hj
          rw [mapFind, if_neg (Ne.symm h1), ih, if_pos rfl, if_pos rfl, mapFind,
            if_neg (Ne.symm h1)]
        · rw [if_neg hj, mapFind, ih, if_neg hj]
          rfl

theorem sorted_ext {a b : Results} (ha : Sorted a) (hb : Sorted b)
    (h : ∀ k, mapFind a k = mapFind b k) : a = b := by
  induction a generalizing b with
  | nil =>
    cases b with
    | nil => rfl
    | cons e t =>
      obtain ⟨k, v⟩ := e
      have := h k
      simp [mapFind] at this
  | cons e ta ih =>
    obtain ⟨k, v⟩ := e
    cases b with
    | nil =>
      have := h k
      simp [mapFind] at this
    | cons e' tb =>
      obtain ⟨k', v'⟩ := e'
      have hta : Sorted ta := (List.pairwise_cons.1 ha).2
      have hha : ∀ e ∈ ta, k < e.1 := (List.pairwise_cons.1 ha).1
      have htb : Sorted tb := (List.pairwise_cons.1 hb).2
      have hhb : ∀ e ∈ tb, k' < e.1 := (List.pairwise_cons.1 hb).1
      have hkk : k = k' := by
        by_contra hne
        rcases lt_or_gt_of_ne hne with hlt | hgt
        · have h1 := h k
          rw [mapFind_none_of_lt (m := (k', v') :: tb) (fun e he => by
            rcases List.mem_cons.1 he with h | h
            · rw [h]; exact hlt
            · exact lt_trans hlt (hhb e h))] at h1
          simp [mapFind] at h1
        · have h1 := h k'
          rw [mapFind_none_of_lt (m := (k, v) :: ta) (fun e he => by
            rcases List.mem_cons.1 he with h | h
            · rw [h]; exact hgt
            · exact lt_trans hgt (hha e h))] at h1
          simp [mapFind] at h1
      subst hkk
      have hv : v = v' := by
        have h1 := h k
        simpa [mapFind] using h1
      subst hv
      congr 1
      apply ih hta htb
      intro j
      by_cases hj : k = j
      · subst hj
        rw [mapFind_none_of_lt hha, mapFind_none_of_lt hhb]
      · have h1 := h j
        simpa [mapFind, hj] using h1

theorem mergeInto_append (acc : Results) (a b : List (String × ℚ)) :
    mergeInto (mergeInto acc a) b = mergeInto acc (a ++ b) := by
  simp [mergeInto, List.foldl_append]

theorem mergeInto_sorted {acc : Results} (h : Sorted acc) (cs : List (String × ℚ)) :
    Sorted (mergeInto acc cs) := by
  induction cs generalizing acc with
  | nil => exact h
  | cons e t ih => exact ih (addAt_sorted e.1 e.2 h)

theorem mapFind_mergeInto {acc : Results} (h : Sorted acc) (cs : List (String × ℚ))
    (j : String) :
    mapFind (mergeInto acc cs) j
      = if ∃ e ∈ cs, e.1 = j then some ((mapFind acc j).getD 0 + keyTotal cs j)
        else mapFind acc j := by
  induction cs generalizing acc with
  | nil => simp [mergeInto]
  | cons e t ih =>
    obtain ⟨k, v⟩ := e
    have step : mergeInto acc ((k, v) :: t) = mergeInto (addAt acc k v) t := rfl
    rw [step, ih (addAt_sorted k v h), mapFind_addAt h]
    by_cases hk : j = k
    · subst hk
      have h1 : ∃ e ∈ (j, v) :: t, e.1 = j := ⟨(j, v), List.mem_cons_self _ _, rfl⟩
      rw [if_pos h1, if_pos rfl]
      have h2 : keyTotal ((j, v) :: t) j = v + keyTotal t j := by
        simp [keyTotal, List.filter_cons]
      rw [h2]
      by_cases h3 : ∃ e ∈ t, e.1 = j
      · rw [if_pos h3]; simp only [Option.getD_some]; congr 1; ring
      · rw [if_neg h3]
        have h4 : keyTotal t j = 0 := by
          unfold keyTotal
          have : t.filter (fun e => decide (e.1 = j)) = [] := by
            apply List.filter_eq_nil_iff.2
            intro e he
            simp only [decide_eq_true_eq]
            exact fun hh => h3 ⟨e, he, hh⟩
          rw [this]; rfl
        rw [h4]; simp
    · rw [if_neg hk]
      have h2 : keyTotal ((k, v) :: t) j = keyTotal t j := by
        simp [keyTotal, List.filter_cons, Ne.symm hk]
      have h3 : (∃ e ∈ (k, v) :: t, e.1 = j) ↔ ∃ e ∈ t, e.1 = j := by
        constructor
        · rintro ⟨e, he, hej⟩
          rcases List.mem_cons.1 he with h | h
          · subst h; exact absurd hej.symm hk
          · exact ⟨e, h, hej⟩
        · rintro ⟨e, he, hej⟩
          exact ⟨e, List.mem_cons_of_mem _ he, hej⟩
      rw [h2]
      by_cases h4 : ∃ e ∈ t, e.1 = j
      · rw [if_pos h4, if_pos (h3.2 h4)]
      · rw [if_neg h4, if_neg (fun hh => h4 (h3.1 hh))]

theorem sorted_nil : Sorted ([] : Results) := List.Pairwise.nil

theorem mem_key_iff_mapFind (m : Results) (j : String) :
    (∃ e ∈ m, e.1 = j) ↔ mapFind m j ≠ none := by
  induction m with
  | nil => simp [mapFind]
  | cons e t ih =>
    obtain ⟨k, v⟩ := e
    by_cases hk : k = j
    · subst hk
      simp [mapFind]
    · simp only [mapFind, if_neg hk, ← ih]
      constructor
      · rintro ⟨e, he, hej⟩
        rcases List.mem_cons.1 he with h | h
        · subst h; exact absurd hej hk
        · exact ⟨e, h, hej⟩
      · rintro ⟨e, he, hej⟩
        exact ⟨e, List.mem_cons_of_mem _ he, hej⟩

theorem keyTotal_sorted {m : Results} (h : Sorted m) (j : String) :
    keyTotal m j = (mapFind m j).getD 0 := by
  induction m with
  | nil => rfl
  | cons e t ih =>
    obtain ⟨k, v⟩ := e
    have ht : Sorted t := (List.pairwise_cons.1 h).2
    have hh : ∀ e ∈ t, k < e.1 := (List.pairwise_cons.1 h).1
    by_cases hk : k = j
    · subst hk
      have h0 : keyTotal t k = 0 := by
        rw [ih ht, mapFind_none_of_lt hh]; rfl
      have h2 : keyTotal ((k, v) :: t) k = v + keyTotal t k := by
        simp [keyTotal, List.filter_cons]
      rw [h2, h0]; simp [mapFind]
    · have h2 : keyTotal ((k, v) :: t) j = keyTotal t j := by
        simp [keyTotal, List.filter_cons, hk]
      rw [h2, ih ht, mapFind, if_neg hk]

/-- Merging a sorted local map performs the same additions as the entries it was built
from. -/
theorem mergeInto_local {acc : Results} (h : Sorted acc) (cs : List (String × ℚ)) :
    mergeInto acc (mergeInto [] cs) = mergeInto acc cs := by
  have hl : Sorted (mergeInto [] cs) := mergeInto_sorted sorted_nil cs
  apply sorted_ext (mergeInto_sorted h _) (mergeInto_sorted h _)
  intro j
  have hfind := mapFind_mergeInto sorted_nil cs j
  rw [mapFind_mergeInto h, mapFind_mergeInto h, keyTotal_sorted hl]
  by_cases hj : ∃ e ∈ cs, e.1 = j
  · rw [if_pos hj] at hfind
    have hj2 : ∃ e ∈ mergeInto [] cs, e.1 = j := by
      rw [mem_key_iff_mapFind, hfind]; simp
    rw [if_pos hj, if_pos hj2, hfind]
    simp [mapFind]
  · rw [if_neg hj] at hfind
    have hj2 : ¬ ∃ e ∈ mergeInto [] cs, e.1 = j := by
      rw [mem_key_iff_mapFind, hfind]; simp [mapFind]
    rw [if_neg hj, if_neg hj2]

section Scan

variable (stod : String → Option ℚ) (target_r_key : String)
  (order_to_cust cust_to_nation supp_to_nation nation_to_name nation_to_region : Index)

theorem mergeInto_single (acc : Results) (k : String) (v : ℚ) :
    mergeInto acc (addAt [] k v) = addAt acc k v := by
  simp [mergeInto, addAt]

theorem scanItem_eq_merge (acc : Results) (li : Row) :
    scanItem stod target_r_key order_to_cust cust_to_nation supp_to_nation nation_to_name
        nation_to_region acc li
      = (scanItem stod target_r_key order_to_cust cust_to_nation supp_to_nation nation_to_name
          nation_to_region [] li).map (mergeInto acc) := by
  unfold scanItem
  simp only [bind, Except.bind, pure, Except.pure]
  repeat' split
  all_goals first
    | rfl
    | (simp only [Except.map, mergeInto_single])

theorem scanList_eq_contribs (items : List Row) (acc : Results) :
    scanList stod target_r_key order_to_cust cust_to_nation supp_to_nation nation_to_name
        nation_to_region items acc
      = (contribs stod target_r_key order_to_cust cust_to_nation supp_to_nation nation_to_name
          nation_to_region items).map (mergeInto acc) := by
  induction items generalizing acc with
  | nil => rfl
  | cons li rest ih =>
    rw [scanList, contribs, scanItem_eq_merge]
    cases scanItem stod target_r_key order_to_cust cust_to_nation supp_to_nation nation_to_name
        nation_to_region [] li with
    | error e => rfl
    | ok c =>
      simp only [Except.map, bind, Except.bind]
      rw [ih]
      cases contribs stod target_r_key order_to_cust cust_to_nation supp_to_nation
          nation_to_name nation_to_region rest with
      | error e => rfl
      | ok cs => simp only [Except.map, pure, Except.pure, mergeInto_append]

theorem contribs_append (a b : List Row) :
    contribs stod target_r_key order_to_cust cust_to_nation supp_to_nation nation_to_name
        nation_to_region (a ++ b)
      = (contribs stod target_r_key order_to_cust cust_to_nation supp_to_nation nation_to_name
          nation_to_region a).bind (fun ca =>
        (contribs stod target_r_key order_to_cust cust_to_nation supp_to_nation nation_to_name
          nation_to_region b).map (fun cb => ca ++ cb)) := by
  induction a with
  | nil =>
    simp only [List.nil_append, contribs, pure, Except.pure, Except.bind]
    cases contribs stod target_r_key order_to_cust cust_to_nation supp_to_nation
        nation_to_name nation_to_region b <;> simp [Except.map]
  | cons li rest ih =>
    rw [List.cons_append, contribs, contribs, ih]
    cases scanItem stod target_r_key order_to_cust cust_to_nation supp_to_nation nation_to_name
        nation_to_region [] li with
    | error e => rfl
    | ok c =>
      simp only [bind, Except.bind]
      cases contribs stod target_r_key order_to_cust cust_to_nation supp_to_nation
          nation_to_name nation_to_region rest with
      | error e => rfl
      | ok cs =>
        simp only [pure, Except.pure]
        cases contribs stod target_r_key order_to_cust cust_to_nation supp_to_nation
            nation_to_name nation_to_region b <;> simp [Except.map]

end Scan

/-! ## Machine integers -/

theorem toInt_of_range {x : Int} (h0 : -2 ^ 31 ≤ x) (h1 : x < 2 ^ 31) : toInt x = x := by
  unfold toInt
  have : (x + 2 ^ 31) % 2 ^ 32 = x + 2 ^ 31 := Int.emod_eq_of_lt (by omega) (by omega)
  omega

theorem toInt_natCast {a : Nat} (h : a < 2 ^ 31) : toInt (a : Int) = (a : Int) :=
  toInt_of_range (by omega) (by omega)

theorem toSizeT_natCast {a : Nat} (h : a < 2 ^ 64) : toSizeT (a : Int) = a := by
  unfold toSizeT
  have : ((a : Int)) % 2 ^ 64 = (a : Int) := Int.emod_eq_of_lt (by omega) (by omega)
  rw [this]; simp

/-! ## The scan loop and the chunks -/

section Run

variable (stod : String → Option ℚ) (target_r_key : String) (lineitem_data : Table)
  (order_to_cust cust_to_nation supp_to_nation nation_to_name nation_to_region : Index)

theorem scanLoop_eq_scanList (hN : lineitem_data.length < 2 ^ 31) (n a : Nat)
    (h : a + n ≤ lineitem_data.length) (acc : Results) :
    scanLoop stod target_r_key lineitem_data order_to_cust cust_to_nation supp_to_nation
        nation_to_name nation_to_region n (a : Int) acc
      = scanList stod target_r_key order_to_cust cust_to_nation supp_to_nation nation_to_name
          nation_to_region ((lineitem_data.drop a).take n) acc := by
  induction n generalizing a acc with
  | zero => simp [scanLoop, scanList]
  | succ n ih =>
    have ha : a < lineitem_data.length := by omega
    have hget : lineitem_data[toSizeT (a : Int)]? = some (lineitem_data[a]) := by
      rw [toSizeT_natCast (by omega)]
      exact List.getElem?_eq_getElem ha
    have hdrop : (lineitem_data.drop a).take (n + 1)
        = lineitem_data[a] :: (lineitem_data.drop (a + 1)).take n := by
      rw [List.drop_eq_getElem_cons ha, List.take_succ_cons]
    have hnext : toInt ((a : Int) + 1) = ((a + 1 : Nat) : Int) := by
      rw [← Nat.cast_succ]
      exact toInt_natCast (by omega)
    rw [scanLoop, hdrop, scanList]
    simp only [vecAt, hget, bind, Except.bind]
    cases scanItem stod target_r_key order_to_cust cust_to_nation supp_to_nation nation_to_name
        nation_to_region acc lineitem_data[a] with
    | error e => rfl
    | ok next =>
      simp only []
      rw [hnext, ih (a + 1) (by omega)]

theorem queryWorker_eq (hN : lineitem_data.length < 2 ^ 31) (a b : Nat) (hab : a ≤ b)
    (hb : b ≤ lineitem_data.length) {results : Results} (hR : Sorted results) :
    queryWorker stod (a : Int) (b : Int) target_r_key lineitem_data order_to_cust cust_to_nation
        supp_to_nation nation_to_name nation_to_region results
      = (contribs stod target_r_key order_to_cust cust_to_nation supp_to_nation nation_to_name
          nation_to_region ((lineitem_data.drop a).take (b - a))).map (mergeInto results) := by
  have hcount : ((b : Int) - (a : Int)).toNat = b - a := by omega
  rw [queryWorker, hcount, scanLoop_eq_scanList _ _ _ _ _ _ _ _ hN _ _ (by omega),
    scanList_eq_contribs]
  cases contribs stod target_r_key order_to_cust cust_to_nation supp_to_nation nation_to_name
      nation_to_region ((lineitem_data.drop a).take (b - a)) with
  | error e => rfl
  | ok cs =>
    simp only [Except.map, bind, Except.bind, pure, Except.pure]
    rw [mergeInto_local hR]

theorem runWorkers_eq (hN : lineitem_data.length < 2 ^ 31) (chunks : List (Int × Int))
    (a : Nat) (hc : covers a chunks lineitem_data.length) {results : Results}
    (hR : Sorted results) :
    runWorkers stod target_r_key lineitem_data order_to_cust cust_to_nation supp_to_nation
        nation_to_name nation_to_region chunks results
      = (contribs stod target_r_key order_to_cust cust_to_nation supp_to_nation nation_to_name
          nation_to_region (lineitem_data.drop a)).map (mergeInto results) := by
  induction chunks generalizing a results with
  | nil =>
    simp only [covers] at hc
    subst hc
    simp [runWorkers, contribs, Except.map, pure, Except.pure, mergeInto]
  | cons c rest ih =>
    obtain ⟨s, e⟩ := c
    obtain ⟨hs, b, he, hab, hb, hrest⟩ := hc
    subst hs; subst he
    have hsplit : lineitem_data.drop a
        = (lineitem_data.drop a).take (b - a) ++ lineitem_data.drop b := by
      have h1 := (List.take_append_drop (b - a) (lineitem_data.drop a)).symm
      rw [List.drop_drop] at h1
      have h3 : a + (b - a) = b := by omega
      rw [h3] at h1
      exact h1
    rw [runWorkers, queryWorker_eq _ _ _ _ _ _ _ _ hN a b (le_of_lt hab) hb hR]
    conv_rhs => rw [hsplit, contribs_append]
    cases contribs stod target_r_key order_to_cust cust_to_nation supp_to_nation nation_to_name
        nation_to_region ((lineitem_data.drop a).take (b - a)) with
    | error e => rfl
    | ok ca =>
      simp only [Except.map, bind, Except.bind]
      rw [ih b hrest (mergeInto_sorted hR ca)]
      cases contribs stod target_r_key order_to_cust cust_to_nation supp_to_nation
          nation_to_name nation_to_region (lineitem_data.drop b) with
      | error e => rfl
      | ok cb => simp only [Except.map, mergeInto_append]

end Run

/-! ## The chunks tile the table -/

theorem chunkSize_eq {size : Nat} {num_threads : Int} (hT : 1 ≤ num_threads)
    (hT2 : num_threads < 2 ^ 31) (hN : size < 2 ^ 31) :
    chunkSize size num_threads
      = .ok (if size / num_threads.toNat = 0 then (size : Int)
             else ((size / num_threads.toNat : Nat) : Int)) := by
  obtain ⟨t, rfl⟩ := Int.eq_ofNat_of_zero_le (le_trans (by norm_num) hT)
  have ht : toSizeT (t : Int) = t := toSizeT_natCast (by omega)
  have hdiv : size / t < 2 ^ 31 := lt_of_le_of_lt (Nat.div_le_self _ _) hN
  unfold chunkSize
  rw [ht, if_neg (by omega), toInt_natCast hdiv, toInt_natCast hN]
  simp only [Int.toNat_ofNat, pure, Except.pure]
  congr 1
  by_cases h0 : size / t = 0
  · simp [h0]
  · rw [if_neg h0, if_neg (by exact_mod_cast h0)]

theorem spawnLoop_cover_aux (size t c : Nat) (hc : 1 ≤ c) (htc : t * c ≤ size)
    (hN : size < 2 ^ 31) (n i : Nat) (hi : i + (n + 1) = t) :
    covers (i * c) (spawnLoop size (t : Int) (c : Int) (n + 1) (i : Int)) size := by
  induction n generalizing i with
  | zero =>
    have hit : i + 1 = t := hi
    have h1 : i * c + c = t * c := by rw [← hit]; ring
    have hlt : i * c < size := by omega
    have hstart : toInt ((i : Int) * (c : Int)) = ((i * c : Nat) : Int) := by
      rw [← Nat.cast_mul]; exact toInt_natCast (by omega)
    have hlast : (i : Int) = (t : Int) - 1 := by omega
    simp only [spawnLoop, hstart, toSizeT_natCast (show i * c < 2 ^ 64 by omega),
      if_neg (not_le.2 hlt), if_pos hlast, toInt_natCast hN]
    exact ⟨rfl, size, rfl, hlt, le_refl _, rfl⟩
  | succ n ih =>
    have h1 : (i + 1) * c + c ≤ t * c := by
      have : (i + 1 + 1) * c ≤ t * c := Nat.mul_le_mul_right c (by omega)
      calc (i + 1) * c + c = (i + 1 + 1) * c := by ring
        _ ≤ t * c := this
    have h2 : (i + 1) * c = i * c + c := by ring
    have hlt : i * c < size := by omega
    have hstart : toInt ((i : Int) * (c : Int)) = ((i * c : Nat) : Int) := by
      rw [← Nat.cast_mul]; exact toInt_natCast (by omega)
    have hend : toInt (((i : Int) + 1) * (c : Int)) = (((i + 1) * c : Nat) : Int) := by
      have : ((i : Int) + 1) * (c : Int) = (((i + 1) * c : Nat) : Int) := by push_cast; ring
      rw [this]; exact toInt_natCast (by omega)
    have hnotlast : ¬ (i : Int) = (t : Int) - 1 := by omega
    rw [spawnLoop]
    simp only [hstart, toSizeT_natCast (show i * c < 2 ^ 64 by omega),
      if_neg (not_le.2 hlt), if_neg hnotlast, hend]
    refine ⟨rfl, (i + 1) * c, rfl, by omega, by omega, ?_⟩
    have := ih (i + 1) (by omega)
    simpa using this

/-- For a positive thread count the started workers tile the whole line-item table. -/
theorem spawnLoop_covers {size : Nat} {num_threads : Int} (hT : 1 ≤ num_threads)
    (hT2 : num_threads < 2 ^ 31) (hN : size < 2 ^ 31) :
    ∃ c, chunkSize size num_threads = .ok c ∧
      covers 0 (spawnLoop size num_threads c num_threads.toNat 0) size := by
  refine ⟨_, chunkSize_eq hT hT2 hN, ?_⟩
  obtain ⟨t, rfl⟩ := Int.eq_ofNat_of_zero_le (le_trans (by norm_num) hT)
  simp only [Int.toNat_ofNat]
  have ht1 : 1 ≤ t := by omega
  by_cases h0 : size / t = 0
  · rw [if_pos h0]
    have hlt : size < t := (Nat.div_eq_zero_iff (by omega)).1 h0
    obtain ⟨n, rfl⟩ : ∃ n, t = n + 1 := ⟨t - 1, by omega⟩
    by_cases hz : size = 0
    · subst hz
      simp [spawnLoop, toInt, toSizeT, covers]
    · obtain ⟨m, rfl⟩ : ∃ m, n = m + 1 := ⟨n - 1, by omega⟩
      have hone : toInt ((0 + 1) * (size : Int)) = (size : Int) := by
        rw [show (0 + 1) * (size : Int) = (size : Int) by ring]; exact toInt_natCast hN
      have hne : ¬ (0 : Int) = ((m + 1 + 1 : Nat) : Int) - 1 := by push_cast; omega
      have hzero : toInt (0 * (size : Int)) = 0 := by simp [toInt]
      have hs0 : toSizeT 0 = 0 := by simp [toSizeT]
      rw [spawnLoop, spawnLoop]
      simp only [hzero, hs0, hone, if_neg hne, toSizeT_natCast (show size < 2 ^ 64 by omega)]
      rw [if_neg (by omega), if_pos (le_refl _)]
      exact ⟨rfl, size, rfl, by omega, le_refl _, rfl⟩
  · rw [if_neg h0]
    obtain ⟨n, rfl⟩ : ∃ n, t = n + 1 := ⟨t - 1, by omega⟩
    have := spawnLoop_cover_aux size (n + 1) (size / (n + 1)) (Nat.pos_of_ne_zero h0)
      (Nat.mul_div_le size (n + 1)) hN n 0 (by omega)
    simpa using this

/-! ## The threaded run is the single-scan reference run -/

theorem executeQuery5_eq_reference (stod : String → Option ℚ)
    (r_name start_date end_date : String) (num_threads : Int)
    (customer_data orders_data lineitem_data supplier_data nation_data region_data : Table)
    (results : Results) (hT : 1 ≤ num_threads) (hT2 : num_threads < 2 ^ 31)
    (hN : lineitem_data.length < 2 ^ 31) (hR : Sorted results) :
    executeQuery5 stod r_name start_date end_date num_threads customer_data orders_data
        lineitem_data supplier_data nation_data region_data results
      = referenceQuery5 stod r_name start_date end_date customer_data orders_data
          lineitem_data supplier_data nation_data region_data results := by
  obtain ⟨c, hc, hcov⟩ := spawnLoop_covers hT hT2 hN
  unfold executeQuery5 referenceQuery5
  cases resolveRegion r_name region_data "" with
  | error e => rfl
  | ok target =>
    simp only [bind, Except.bind]
    split
    · rfl
    · cases buildNation nation_data ([], []) with
      | error e => rfl
      | ok maps =>
        obtain ⟨n2name, n2region⟩ := maps
        simp only []
        cases buildIndex "c_custkey" "c_nationkey" customer_data [] with
        | error e => rfl
        | ok c2n =>
          simp only []
          cases buildIndex "s_suppkey" "s_nationkey" supplier_data [] with
          | error e => rfl
          | ok s2n =>
            simp only []
            cases buildOrders start_date end_date orders_data [] with
            | error e => rfl
            | ok o2c =>
              simp only [hc]
              rw [runWorkers_eq stod target lineitem_data o2c c2n s2n n2name n2region hN _ 0
                hcov hR]
              simp only [List.drop_zero]
              cases contribs stod target o2c c2n s2n n2name n2region lineitem_data with
              | error e => rfl
              | ok cs => rfl

/-! ## Indexes -/

theorem mapFind_mapAssign (m : Index) (k j v : String) :
    mapFind (mapAssign m k v) j = if j = k then some v else mapFind m j := by
  induction m with
  | nil =>
    by_cases hj : j = k
    · simp [mapAssign, mapFind, hj]
    · simp [mapAssign, mapFind, hj, Ne.symm hj]
  | cons e t ih =>
    obtain ⟨k', x⟩ := e
    by_cases h1 : k' = k
    · subst h1
      by_cases hj : j = k'
      · simp [mapAssign, mapFind, hj]
      · simp [mapAssign, mapFind, hj, Ne.symm hj]
    · by_cases hj : j = k
      · subst hj
        simp [mapAssign, mapFind, h1, ih]
      · simp only [mapAssign, if_neg h1, mapFind, ih, if_neg hj]

theorem mapAt_of_find {β : Type} {m : List (String × β)} {k : String} {v : β}
    (h : mapFind m k = some v) : mapAt m k = .ok v := by
  simp [mapAt, h]

theorem mapAt_of_none {β : Type} {m : List (String × β)} {k : String}
    (h : mapFind m k = none) : mapAt m k = .error .out_of_range := by
  simp [mapAt, h]

theorem find_of_count {β : Type} {m : List (String × β)} {k : String}
    (h : mapCount m k = true) : ∃ v, mapFind m k = some v := by
  unfold mapCount at h
  exact Option.isSome_iff_exists.1 h

theorem count_of_find {β : Type} {m : List (String × β)} {k : String} {v : β}
    (h : mapFind m k = some v) : mapCount m k = true := by
  simp [mapCount, h]

theorem count_of_none {β : Type} {m : List (String × β)} {k : String}
    (h : mapFind m k = none) : mapCount m k = false := by
  simp [mapCount, h]

theorem hasFields_find {r : Row} {fields : List String} (h : hasFields r fields = true)
    {f : String} (hf : f ∈ fields) : ∃ v, mapFind r f = some v :=
  find_of_count (List.all_eq_true.1 h f hf)

theorem buildIndex_ok (key_field value_field : String) (table : Table)
    (h : ∀ r ∈ table, hasFields r [key_field, value_field] = true) (index : Index) :
    ∃ index', buildIndex key_field value_field table index = .ok index' := by
  induction table generalizing index with
  | nil => exact ⟨index, rfl⟩
  | cons r rest ih =>
    obtain ⟨k, hk⟩ := hasFields_find (h r (List.mem_cons_self _ _)) (f := key_field) (by simp)
    obtain ⟨v, hv⟩ := hasFields_find (h r (List.mem_cons_self _ _)) (f := value_field) (by simp)
    obtain ⟨index', h'⟩ := ih (fun r hr => h r (List.mem_cons_of_mem _ hr)) (mapAssign index k v)
    refine ⟨index', ?_⟩
    rw [buildIndex, mapAt_of_find hk, mapAt_of_find hv]
    exact h'

theorem buildOrders_ok (start_date end_date : String) (orders : Table)
    (h : ∀ o ∈ orders, hasFields o ["o_orderkey", "o_custkey", "o_orderdate"] = true)
    (index : Index) : ∃ index', buildOrders start_date end_date orders index = .ok index' := by
  induction orders generalizing index with
  | nil => exact ⟨index, rfl⟩
  | cons o rest ih =>
    have ho := h o (List.mem_cons_self _ _)
    obtain ⟨k, hk⟩ := hasFields_find ho (f := "o_orderkey") (by simp)
    obtain ⟨c, hc⟩ := hasFields_find ho (f := "o_custkey") (by simp)
    obtain ⟨d, hd⟩ := hasFields_find ho (f := "o_orderdate") (by simp)
    have ih := ih (fun r hr => h r (List.mem_cons_of_mem _ hr))
    rw [buildOrders, if_pos (count_of_find hd), mapAt_of_find hd]
    simp only [bind, Except.bind]
    split
    · rw [mapAt_of_find hk, mapAt_of_find hc]
      exact ih _
    · exact ih _

/-- The two nation maps are assigned under the same keys. -/
theorem buildNation_ok (nation : Table)
    (h : ∀ n ∈ nation, hasFields n ["n_nationkey", "n_name", "n_regionkey"] = true)
    (maps : Index × Index) (hkeys : ∀ k, mapCount maps.1 k = mapCount maps.2 k) :
    ∃ maps', buildNation nation maps = .ok maps' ∧
      ∀ k, mapCount maps'.1 k = mapCount maps'.2 k := by
  induction nation generalizing maps with
  | nil => exact ⟨maps, rfl, hkeys⟩
  | cons n rest ih =>
    obtain ⟨n2name, n2region⟩ := maps
    have hn := h n (List.mem_cons_self _ _)
    obtain ⟨k, hk⟩ := hasFields_find hn (f := "n_nationkey") (by simp)
    obtain ⟨x, hx⟩ := hasFields_find hn (f := "n_name") (by simp)
    obtain ⟨r, hr⟩ := hasFields_find hn (f := "n_regionkey") (by simp)
    obtain ⟨maps', h', hk'⟩ := ih (fun r hr => h r (List.mem_cons_of_mem _ hr))
      (mapAssign n2name k x, mapAssign n2region k r) (by
        intro j
        simp only [mapCount, mapFind_mapAssign]
        by_cases hj : j = k
        · simp [hj]
        · simpa [hj, mapCount] using hkeys j)
    refine ⟨maps', ?_, hk'⟩
    rw [buildNation, mapAt_of_find hk, mapAt_of_find hx, mapAt_of_find hr]
    exact h'

/-! ## The scan body against the specification of the join -/

section Join

variable (stod : String → Option ℚ) (target_r_key : String)
  (order_to_cust cust_to_nation supp_to_nation nation_to_name nation_to_region : Index)

theorem scanItem_eq_itemEntry (hkeys : ∀ k, mapCount nation_to_name k = mapCount nation_to_region k)
    (li : Row)
    (hf : hasFields li ["l_orderkey", "l_suppkey", "l_extendedprice", "l_discount"] = true)
    (hp : ((mapFind li "l_extendedprice").bind stod).isSome = true)
    (hd : ((mapFind li "l_discount").bind stod).isSome = true) :
    scanItem stod target_r_key order_to_cust cust_to_nation supp_to_nation nation_to_name
        nation_to_region [] li
      = .ok (itemEntry stod target_r_key order_to_cust cust_to_nation supp_to_nation
          nation_to_name nation_to_region li) := by
  obtain ⟨ok, hok⟩ := hasFields_find hf (f := "l_orderkey") (by simp)
  obtain ⟨sk, hsk⟩ := hasFields_find hf (f := "l_suppkey") (by simp)
  obtain ⟨ps, hps⟩ := hasFields_find hf (f := "l_extendedprice") (by simp)
  obtain ⟨ds, hds⟩ := hasFields_find hf (f := "l_discount") (by simp)
  rw [hps] at hp
  rw [hds] at hd
  obtain ⟨p, hp⟩ := Option.isSome_iff_exists.1 hp
  obtain ⟨d, hd⟩ := Option.isSome_iff_exists.1 hd
  simp only [Option.bind] at hp hd
  have hrev : lineRevenue stod li = p * (1 - d) := by
    simp [lineRevenue, hps, hds, hp, hd]
  unfold scanItem itemEntry joinName joinNation
  rw [mapAt_of_find hok, hok, hsk, hrev]
  simp only [bind, Except.bind, Option.bind, pure, Except.pure]
  cases h1 : mapFind order_to_cust ok with
  | none => simp [mapCount, h1]
  | some ck =>
    simp only [mapCount, h1, Option.isSome_some, if_true, mapAt, hsk]
    cases h2 : mapFind cust_to_nation ck with
    | none => simp
    | some cn =>
      cases h3 : mapFind supp_to_nation sk with
      | none => simp
      | some sn =>
        simp only [Option.isSome_some, Bool.and_self, if_true]
        by_cases h4 : cn = sn
        · subst h4
          cases h5 : mapFind nation_to_region cn with
          | none => simp
          | some r =>
            by_cases h6 : r = target_r_key
            · subst h6
              have h7 : mapCount nation_to_name cn = true := by
                rw [hkeys]; exact count_of_find h5
              obtain ⟨X, hX⟩ := find_of_count h7
              simp [hps, hds, stodE, hp, hd, hX, addAt]
            · simp [h6]
        · simp [h4]

theorem contribs_eq_itemEntry (hkeys : ∀ k, mapCount nation_to_name k = mapCount nation_to_region k)
    (items : List Row)
    (h : ∀ li ∈ items,
      hasFields li ["l_orderkey", "l_suppkey", "l_extendedprice", "l_discount"] = true ∧
      ((mapFind li "l_extendedprice").bind stod).isSome = true ∧
      ((mapFind li "l_discount").bind stod).isSome = true) :
    contribs stod target_r_key order_to_cust cust_to_nation supp_to_nation nation_to_name
        nation_to_region items
      = .ok (items.flatMap (itemEntry stod target_r_key order_to_cust cust_to_nation
          supp_to_nation nation_to_name nation_to_region)) := by
  induction items with
  | nil => rfl
  | cons li rest ih =>
    obtain ⟨hf, hp, hd⟩ := h li (List.mem_cons_self _ _)
    rw [contribs, scanItem_eq_itemEntry stod target_r_key order_to_cust cust_to_nation
      supp_to_nation nation_to_name nation_to_region hkeys li hf hp hd,
      ih (fun r hr => h r (List.mem_cons_of_mem _ hr))]
    rfl

theorem keyTotal_append (a b : List (String × ℚ)) (X : String) :
    keyTotal (a ++ b) X = keyTotal a X + keyTotal b X := by
  simp [keyTotal, List.filter_append]

theorem keyTotal_itemEntry (items : List Row) (X : String) :
    keyTotal (items.flatMap (itemEntry stod target_r_key order_to_cust cust_to_nation
        supp_to_nation nation_to_name nation_to_region)) X
      = specTotal stod target_r_key order_to_cust cust_to_nation supp_to_nation nation_to_name
          nation_to_region items X := by
  induction items with
  | nil => rfl
  | cons li rest ih =>
    rw [List.flatMap_cons, keyTotal_append, ih]
    unfold specTotal itemEntry
    cases hj : joinName target_r_key order_to_cust cust_to_nation supp_to_nation nation_to_name
        nation_to_region li with
    | none => simp [keyTotal, List.filter_cons, hj]
    | some Y =>
      by_cases hY : Y = X
      · subst hY
        simp [keyTotal, List.filter_cons, hj]
      · simp [keyTotal, List.filter_cons, hj, hY]

end Join


/-! ## Join correctness and partition invariance -/

/-- On a well-formed dataset with a resolving region the run returns `true` and adds
the entry of every line item to `results`. -/
theorem executeQuery5_wellFormed (stod : String → Option ℚ)
    (r_name start_date end_date : String) (num_threads : Int)
    (customer_data orders_data lineitem_data supplier_data nation_data region_data : Table)
    (results : Results) (target_r_key : String)
    (hwf : wellFormed stod customer_data orders_data lineitem_data supplier_data nation_data)
    (hT : 1 ≤ num_threads) (hT2 : num_threads < 2 ^ 31)
    (hN : lineitem_data.length < 2 ^ 31) (hR : Sorted results)
    (hregion : resolveRegion r_name region_data "" = .ok target_r_key)
    (hne : target_r_key ≠ "") :
    ∃ nation_to_name nation_to_region cust_to_nation supp_to_nation order_to_cust,
      buildNation nation_data ([], []) = .ok (nation_to_name, nation_to_region) ∧
      buildIndex "c_custkey" "c_nationkey" customer_data [] = .ok cust_to_nation ∧
      buildIndex "s_suppkey" "s_nationkey" supplier_data [] = .ok supp_to_nation ∧
      buildOrders start_date end_date orders_data [] = .ok order_to_cust ∧
      executeQuery5 stod r_name start_date end_date num_threads customer_data orders_data
        lineitem_data supplier_data nation_data region_data results
        = .ok (true, mergeInto results (lineitem_data.flatMap (itemEntry stod target_r_key
            order_to_cust cust_to_nation supp_to_nation nation_to_name nation_to_region))) := by
  obtain ⟨hcust, hord, hline, hsupp, hnat⟩ := hwf
  obtain ⟨⟨n2name, n2region⟩, hbn, hkeys⟩ := buildNation_ok nation_data hnat ([], [])
    (fun _ => rfl)
  obtain ⟨c2n, hbc⟩ := buildIndex_ok "c_custkey" "c_nationkey" customer_data hcust []
  obtain ⟨s2n, hbs⟩ := buildIndex_ok "s_suppkey" "s_nationkey" supplier_data hsupp []
  obtain ⟨o2c, hbo⟩ := buildOrders_ok start_date end_date orders_data hord []
  have hcs := contribs_eq_itemEntry stod target_r_key o2c c2n s2n n2name n2region hkeys
    lineitem_data hline
  refine ⟨n2name, n2region, c2n, s2n, o2c, hbn, hbc, hbs, hbo, ?_⟩
  rw [executeQuery5_eq_reference stod r_name start_date end_date num_threads customer_data
    orders_data lineitem_data supplier_data nation_data region_data results hT hT2 hN hR]
  unfold referenceQuery5
  rw [hregion]
  simp only [bind, Except.bind, if_neg hne, hbn, hbc, hbs, hbo, hcs]
  rfl

/-- A key without entry in a list of additions has total `0`. -/
theorem keyTotal_eq_zero {cs : List (String × ℚ)} {X : String}
    (h : ¬ ∃ e ∈ cs, e.1 = X) : keyTotal cs X = 0 := by
  unfold keyTotal
  have : cs.filter (fun e => decide (e.1 = X)) = [] := by
    apply List.filter_eq_nil_iff.2
    intro e he
    simp only [decide_eq_true_eq]
    exact fun hh => h ⟨e, he, hh⟩
  rw [this]; rfl

/-- C1 (join correctness of `executeQuery5`): for every dataset whose rows carry all
expected fields with numeric price and discount, every thread count `num_threads ≥ 1`,
a region name that resolves to a key, and an empty `results` map on entry, the indexes
are built, the call returns `true`, and the value stored under every nation name `X`
is the exact sum of `extended_price * (1 - discount)` over precisely the line items
that pass the five join checks under a nation named `X` (the order key is in the
date-filtered order index, customer and supplier resolve to one nation key, that key is
sent to the target region key); no other line item contributes. The table size is
taken to fit the `int` variables that hold it. -/
theorem join_correctness (stod : String → Option ℚ) (r_name start_date end_date : String)
    (num_threads : Int)
    (customer_data orders_data lineitem_data supplier_data nation_data region_data : Table)
    (target_r_key : String)
    (hwf : wellFormed stod customer_data orders_data lineitem_data supplier_data nation_data)
    (hT : 1 ≤ num_threads) (hT2 : num_threads < 2 ^ 31)
    (hN : lineitem_data.length < 2 ^ 31)
    (hregion : resolveRegion r_name region_data "" = .ok target_r_key)
    (hne : target_r_key ≠ "") :
    ∃ nation_to_name nation_to_region cust_to_nation supp_to_nation order_to_cust final,
      buildNation nation_data ([], []) = .ok (nation_to_name, nation_to_region) ∧
      buildIndex "c_custkey" "c_nationkey" customer_data [] = .ok cust_to_nation ∧
      buildIndex "s_suppkey" "s_nationkey" supplier_data [] = .ok supp_to_nation ∧
      buildOrders start_date end_date orders_data [] = .ok order_to_cust ∧
      executeQuery5 stod r_name start_date end_date num_threads customer_data orders_data
        lineitem_data supplier_data nation_data region_data [] = .ok (true, final) ∧
      ∀ X, (mapFind final X).getD 0
        = specTotal stod target_r_key order_to_cust cust_to_nation supp_to_nation
            nation_to_name nation_to_region lineitem_data X := by
  obtain ⟨n2name, n2region, c2n, s2n, o2c, hbn, hbc, hbs, hbo, hrun⟩ :=
    executeQuery5_wellFormed stod r_name start_date end_date num_threads customer_data
      orders_data lineitem_data supplier_data nation_data region_data [] target_r_key hwf hT hT2
      hN sorted_nil hregion hne
  refine ⟨n2name, n2region, c2n, s2n, o2c, _, hbn, hbc, hbs, hbo, hrun, ?_⟩
  intro X
  rw [mapFind_mergeInto sorted_nil, ← keyTotal_itemEntry]
  split
  · simp [mapFind]
  · rename_i hno
    rw [keyTotal_eq_zero hno]; rfl

/-- C1, concrete run: one qualifying line item with price `100` and discount `0.1`
gives `90` for its nation. -/
theorem join_correctness_witness :
    ∃ final, executeQuery5 stodDecimal "ASIA" "1994-01-01" "1995-01-01" 1 customerEx ordersEx
        lineitemEx supplierEx nationEx regionEx [] = .ok (true, final) ∧
      (mapFind final "INDIA").getD 0 = 90 := by
  obtain ⟨n2name, n2region, c2n, s2n, o2c, final, h1, h2, h3, h4, h5, h6⟩ :=
    join_correctness stodDecimal "ASIA" "1994-01-01" "1995-01-01" 1 customerEx ordersEx
      lineitemEx supplierEx nationEx regionEx "2"
      (by unfold wellFormed; decide!) (by decide) (by decide) (by decide) (by decide!)
      (by decide)
  refine ⟨final, h5, ?_⟩
  have e1 : buildNation nationEx ([], []) = .ok ([("8", "INDIA")], [("8", "2")]) := by decide!
  have e2 : buildIndex "c_custkey" "c_nationkey" customerEx [] = .ok [("7", "8")] := by decide!
  have e3 : buildIndex "s_suppkey" "s_nationkey" supplierEx [] = .ok [("5", "8")] := by decide!
  have e4 : buildOrders "1994-01-01" "1995-01-01" ordersEx [] = .ok [("1", "7")] := by decide!
  rw [e1] at h1
  rw [e2] at h2
  rw [e3] at h3
  rw [e4] at h4
  injection h1 with h1
  injection h1 with h1a h1b
  injection h2 with h2
  injection h3 with h3
  injection h4 with h4
  subst h1a h1b h2 h3 h4
  rw [h6]
  decide!

/-- C2 (partition invariance of `executeQuery5`): for every dataset and every thread
count `num_threads ≥ 1` (so also `8`, and any count above the number of line items) the
call gives exactly the outcome of the call with one thread on the same inputs, and
both are the single scan in which every line item is visited exactly once. The table
size is taken to fit `int` and the `results` map to be a `std::map` (sorted keys). -/
theorem partition_invariance (stod : String → Option ℚ) (r_name start_date end_date : String)
    (num_threads : Int)
    (customer_data orders_data lineitem_data supplier_data nation_data region_data : Table)
    (results : Results) (hT : 1 ≤ num_threads) (hT2 : num_threads < 2 ^ 31)
    (hN : lineitem_data.length < 2 ^ 31) (hR : Sorted results) :
    executeQuery5 stod r_name start_date end_date num_threads customer_data orders_data
        lineitem_data supplier_data nation_data region_data results
      = executeQuery5 stod r_name start_date end_date 1 customer_data orders_data
          lineitem_data supplier_data nation_data region_data results ∧
    executeQuery5 stod r_name start_date end_date num_threads customer_data orders_data
        lineitem_data supplier_data nation_data region_data results
      = referenceQuery5 stod r_name start_date end_date customer_data orders_data
          lineitem_data supplier_data nation_data region_data results := by
  have h1 := executeQuery5_eq_reference stod r_name start_date end_date num_threads
    customer_data orders_data lineitem_data supplier_data nation_data region_data results
    hT hT2 hN hR
  have h2 := executeQuery5_eq_reference stod r_name start_date end_date 1
    customer_data orders_data lineitem_data supplier_data nation_data region_data results
    (le_refl _) (by norm_num) hN hR
  exact ⟨h1.trans h2.symm, h1⟩

/-- C2, concrete run: eight threads on a three-row line-item table. -/
theorem partition_invariance_witness :
    executeQuery5 stodDecimal "ASIA" "1994-01-01" "1995-01-01" 8 customerEx ordersEx
        lineitemEx3 supplierEx nationEx regionEx [("CHINA", 5)]
      = executeQuery5 stodDecimal "ASIA" "1994-01-01" "1995-01-01" 1 customerEx ordersEx
          lineitemEx3 supplierEx nationEx regionEx [("CHINA", 5)] :=
  (partition_invariance stodDecimal "ASIA" "1994-01-01" "1995-01-01" 8 customerEx ordersEx
    lineitemEx3 supplierEx nationEx regionEx [("CHINA", 5)] (by decide) (by decide)
    (by decide) (by unfold Sorted; simp)).1


/-! ## Thread count and region resolution -/

/-- C3 (non-positive thread count), evaluation of the code: with `num_threads = 0` the
chunk computation divides by zero, and with `num_threads = -1` no worker is started, so
the qualifying line item is dropped and the totals stay empty, whereas one thread
gives `90` for its nation. -/
theorem nonpositive_threads_run :
    executeQuery5 stodDecimal "ASIA" "1994-01-01" "1995-01-01" 0 customerEx ordersEx
        lineitemEx supplierEx nationEx regionEx [] = .error .div_by_zero ∧
    executeQuery5 stodDecimal "ASIA" "1994-01-01" "1995-01-01" (-1) customerEx ordersEx
        lineitemEx supplierEx nationEx regionEx [] = .ok (true, []) ∧
    executeQuery5 stodDecimal "ASIA" "1994-01-01" "1995-01-01" 1 customerEx ordersEx
        lineitemEx supplierEx nationEx regionEx [] = .ok (true, [("INDIA", 90)]) := by
  decide!

theorem lastMatch_cons (r_name : String) (r : Row) (rest : Table)
    (hf : ∀ x ∈ r :: rest, hasFields x ["r_regionkey", "r_name"] = true) :
    lastMatch r_name (r :: rest)
      = if mapFind r "r_name" = some r_name then
          some ((lastMatch r_name rest).getD ((mapFind r "r_regionkey").getD ""))
        else lastMatch r_name rest := by
  unfold lastMatch
  by_cases hm : mapFind r "r_name" = some r_name
  · rw [if_pos hm, List.filter_cons_of_pos (by simpa using hm), List.getLast?_cons]
    obtain ⟨k, hk⟩ := hasFields_find (hf r (List.mem_cons_self _ _)) (f := "r_regionkey")
      (by simp)
    cases hl : (rest.filter (fun r => decide (mapFind r "r_name" = some r_name))).getLast? with
    | none => simp [hk]
    | some x =>
      have hx : x ∈ rest := (List.mem_filter.1 (List.mem_of_getLast?_eq_some hl)).1
      obtain ⟨k', hk'⟩ := hasFields_find (hf x (List.mem_cons_of_mem _ hx)) (f := "r_regionkey")
        (by simp)
      simp [hk']
  · rw [if_neg hm, List.filter_cons_of_neg (by simpa using hm)]

/-- The region scan returns the key of the last matching row, or its start value. -/
theorem resolveRegion_eq (r_name : String) (region_data : Table)
    (hf : ∀ r ∈ region_data, hasFields r ["r_regionkey", "r_name"] = true) (init : String) :
    resolveRegion r_name region_data init
      = .ok ((lastMatch r_name region_data).getD init) := by
  induction region_data generalizing init with
  | nil => rfl
  | cons r rest ih =>
    have hrest : ∀ x ∈ rest, hasFields x ["r_regionkey", "r_name"] = true :=
      fun x hx => hf x (List.mem_cons_of_mem _ hx)
    obtain ⟨k, hk⟩ := hasFields_find (hf r (List.mem_cons_self _ _)) (f := "r_regionkey")
      (by simp)
    obtain ⟨n, hn⟩ := hasFields_find (hf r (List.mem_cons_self _ _)) (f := "r_name") (by simp)
    rw [lastMatch_cons r_name r rest hf, resolveRegion, mapAt_of_find hn]
    simp only [bind, Except.bind]
    by_cases hm : n = r_name
    · subst hm
      rw [if_pos rfl, mapAt_of_find hk]
      simp only []
      rw [ih hrest, if_pos hn, hk]
      rfl
    · rw [if_neg hm, ih hrest, if_neg (by rw [hn]; simpa using hm)]

theorem lastMatch_eq_none (r_name : String) (region_data : Table)
    (hf : ∀ r ∈ region_data, hasFields r ["r_regionkey", "r_name"] = true) :
    lastMatch r_name region_data = none
      ↔ ∀ r ∈ region_data, mapFind r "r_name" ≠ some r_name := by
  induction region_data with
  | nil => simp [lastMatch]
  | cons r rest ih =>
    have hrest : ∀ x ∈ rest, hasFields x ["r_regionkey", "r_name"] = true :=
      fun x hx => hf x (List.mem_cons_of_mem _ hx)
    rw [lastMatch_cons r_name r rest hf]
    by_cases hm : mapFind r "r_name" = some r_name
    · rw [if_pos hm]
      constructor
      · intro h; exact absurd h (by simp)
      · intro h; exact absurd hm (h r (List.mem_cons_self _ _))
    · rw [if_neg hm, ih hrest]
      constructor
      · intro h x hx
        rcases List.mem_cons.1 hx with h1 | h1
        · rw [h1]; exact hm
        · exact h x h1
      · intro h x hx
        exact h x (List.mem_cons_of_mem _ hx)

/-- The only `return false` of `executeQuery5` is the one taken when the resolved
region key is the empty string, and it leaves `results` untouched. -/
theorem executeQuery5_false_iff (stod : String → Option ℚ)
    (r_name start_date end_date : String) (num_threads : Int)
    (customer_data orders_data lineitem_data supplier_data nation_data region_data : Table)
    (results res : Results) :
    executeQuery5 stod r_name start_date end_date num_threads customer_data orders_data
        lineitem_data supplier_data nation_data region_data results = .ok (false, res)
      ↔ resolveRegion r_name region_data "" = .ok "" ∧ res = results := by
  unfold executeQuery5
  cases resolveRegion r_name region_data "" with
  | error e => simp [bind, Except.bind]
  | ok target =>
    simp only [bind, Except.bind]
    by_cases ht : target = ""
    · subst ht
      rw [if_pos rfl]
      constructor
      · intro h
        have h' : (Except.ok (false, results) : Except Err (Bool × Results))
            = .ok (false, res) := h
        injection h' with h'
        injection h' with _ h2
        exact ⟨rfl, h2.symm⟩
      · rintro ⟨_, h⟩
        rw [h]; rfl
    · rw [if_neg ht]
      have hno : ¬ (Except.ok target = (Except.ok "" : Except Err String)) := by
        intro h; injection h with h; exact ht h
      constructor
      · intro h
        exfalso
        repeat' split at h
        all_goals first
          | exact Except.noConfusion h
          | (simp only [pure, Except.pure] at h
             injection h with h
             injection h with h1 _
             exact Bool.noConfusion h1)
      · rintro ⟨h, _⟩
        exact absurd h hno


/-- C4, counterexample: every region row carries both fields and one row has the
requested name, yet `executeQuery5` returns `false`, because that row's key is the
empty string, the value the code uses for "not found". -/
theorem region_blank_key_returns_false :
    (∀ r ∈ regionBlank, hasFields r ["r_regionkey", "r_name"] = true) ∧
    (∃ r ∈ regionBlank, mapFind r "r_name" = some "ASIA") ∧
    executeQuery5 stodDecimal "ASIA" "1994-01-01" "1995-01-01" 1 customerEx ordersEx
      lineitemEx supplierEx nationEx regionBlank [] = .ok (false, []) := by
  decide!

/-- C4 as amended (region resolution failure): for every region table whose rows carry
both fields and every requested name, `executeQuery5` returns `false` if and only if
no row has the requested name or the last row that has it carries an empty key; and
whenever the last matching row carries a non-empty key, the query proceeds and, on a
dataset whose rows carry all expected fields with numeric price and discount and with
`num_threads ≥ 1`, returns `true`. -/
theorem region_failure_iff (stod : String → Option ℚ) (r_name start_date end_date : String)
    (num_threads : Int)
    (customer_data orders_data lineitem_data supplier_data nation_data region_data : Table)
    (results : Results)
    (hf : ∀ r ∈ region_data, hasFields r ["r_regionkey", "r_name"] = true) :
    ((∃ res, executeQuery5 stod r_name start_date end_date num_threads customer_data
        orders_data lineitem_data supplier_data nation_data region_data results
          = .ok (false, res))
      ↔ ((∀ r ∈ region_data, mapFind r "r_name" ≠ some r_name)
          ∨ lastMatch r_name region_data = some "")) ∧
    (∀ key, lastMatch r_name region_data = some key → key ≠ "" →
      wellFormed stod customer_data orders_data lineitem_data supplier_data nation_data →
      1 ≤ num_threads → num_threads < 2 ^ 31 → lineitem_data.length < 2 ^ 31 →
      Sorted results →
      ∃ final, executeQuery5 stod r_name start_date end_date num_threads customer_data
        orders_data lineitem_data supplier_data nation_data region_data results
          = .ok (true, final)) := by
  have hres := resolveRegion_eq r_name region_data hf ""
  constructor
  · constructor
    · rintro ⟨res, h⟩
      have h1 := ((executeQuery5_false_iff stod r_name start_date end_date num_threads
        customer_data orders_data lineitem_data supplier_data nation_data region_data results
        res).1 h).1
      rw [hres] at h1
      injection h1 with h1
      cases hl : lastMatch r_name region_data with
      | none => exact Or.inl ((lastMatch_eq_none r_name region_data hf).1 hl)
      | some key =>
        rw [hl] at h1
        right
        simp only [Option.getD_some] at h1
        rw [h1]
    · intro h
      refine ⟨results, (executeQuery5_false_iff stod r_name start_date end_date num_threads
        customer_data orders_data lineitem_data supplier_data nation_data region_data results
        results).2 ⟨?_, rfl⟩⟩
      rw [hres]
      rcases h with h | h
      · rw [(lastMatch_eq_none r_name region_data hf).2 h]; rfl
      · rw [h]; rfl
  · intro key hkey hne hwf hT hT2 hN hR
    rw [hkey] at hres
    obtain ⟨_, _, _, _, _, _, _, _, _, hrun⟩ :=
      executeQuery5_wellFormed stod r_name start_date end_date num_threads customer_data
        orders_data lineitem_data supplier_data nation_data region_data results key hwf hT hT2
        hN hR hres hne
    exact ⟨_, hrun⟩

/-- C4 as amended, concrete run: a name absent from the region table gives `false`. -/
theorem region_failure_iff_witness :
    (∀ r ∈ regionEx, hasFields r ["r_regionkey", "r_name"] = true) ∧
    ∃ res, executeQuery5 stodDecimal "EUROPE" "1994-01-01" "1995-01-01" 1 customerEx ordersEx
      lineitemEx supplierEx nationEx regionEx [] = .ok (false, res) :=
  ⟨by decide!, (region_failure_iff stodDecimal "EUROPE" "1994-01-01" "1995-01-01" 1 customerEx
    ordersEx lineitemEx supplierEx nationEx regionEx [] (by decide!)).1.2
      (Or.inl (by decide!))⟩

/-- C5 (no partial output on region-not-found): whenever `executeQuery5` returns `false`,
the `results` map is exactly as on entry; the failure comes before any index is built
or any worker is started, since the same region table and name give `false` with
`results` untouched whatever the other tables and the thread count are. -/
theorem no_partial_output (stod : String → Option ℚ) (r_name start_date end_date : String)
    (num_threads : Int)
    (customer_data orders_data lineitem_data supplier_data nation_data region_data : Table)
    (results res : Results)
    (h : executeQuery5 stod r_name start_date end_date num_threads customer_data orders_data
      lineitem_data supplier_data nation_data region_data results = .ok (false, res)) :
    res = results ∧
    ∀ (threads : Int) (customer orders lineitem supplier nation : Table),
      executeQuery5 stod r_name start_date end_date threads customer orders lineitem supplier
        nation region_data results = .ok (false, results) := by
  obtain ⟨h1, h2⟩ := (executeQuery5_false_iff stod r_name start_date end_date num_threads
    customer_data orders_data lineitem_data supplier_data nation_data region_data results
    res).1 h
  refine ⟨h2, ?_⟩
  intro threads customer orders lineitem supplier nation
  exact (executeQuery5_false_iff stod r_name start_date end_date threads customer orders
    lineitem supplier nation region_data results results).2 ⟨h1, rfl⟩

/-- C5, concrete run: the region `EUROPE` is absent; the map passed in comes back, also
with no thread and empty tables. -/
theorem no_partial_output_witness :
    executeQuery5 stodDecimal "EUROPE" "1994-01-01" "1995-01-01" 0 [] [] [] [] [] regionEx
      [("CHINA", 5)] = .ok (false, [("CHINA", 5)]) :=
  (no_partial_output stodDecimal "EUROPE" "1994-01-01" "1995-01-01" 1 customerEx
    ordersEx lineitemEx supplierEx nationEx regionEx [("CHINA", 5)] [("CHINA", 5)]
    (by decide!)).2 0 [] [] [] [] []


/-! ## The date-filtered order index -/

theorem substr0_of_length {s : String} {n : Nat} (h : s.length = n) : substr0 s n = s := by
  unfold substr0
  have : s.data.take n = s.data := List.take_of_length_le (by rw [← h]; exact le_refl _)
  rw [this]

/-- The order index after the order loop, for rows with distinct order keys. -/
theorem buildOrders_spec (start_date end_date : String) (orders : Table)
    (hf : ∀ o ∈ orders, hasFields o ["o_orderkey", "o_custkey"] = true)
    (hd : orders.Pairwise (fun a b => mapFind a "o_orderkey" ≠ mapFind b "o_orderkey"))
    (index : Index) :
    ∃ index', buildOrders start_date end_date orders index = .ok index' ∧
      (∀ k, (∀ o ∈ orders, mapFind o "o_orderkey" ≠ some k) →
        mapFind index' k = mapFind index k) ∧
      (∀ o ∈ orders, ∀ k, mapFind o "o_orderkey" = some k →
        mapFind index' k
          = if inWindow start_date end_date o = true then mapFind o "o_custkey"
            else mapFind index k) := by
  induction orders generalizing index with
  | nil => exact ⟨index, rfl, fun _ _ => rfl, fun o ho => absurd ho (List.not_mem_nil _)⟩
  | cons o rest ih =>
    have ho := hf o (List.mem_cons_self _ _)
    obtain ⟨k0, hk0⟩ := hasFields_find ho (f := "o_orderkey") (by simp)
    obtain ⟨c0, hc0⟩ := hasFields_find ho (f := "o_custkey") (by simp)
    have hrest : ∀ x ∈ rest, hasFields x ["o_orderkey", "o_custkey"] = true :=
      fun x hx => hf x (List.mem_cons_of_mem _ hx)
    have hdr := (List.pairwise_cons.1 hd).2
    have hdo : ∀ x ∈ rest, mapFind x "o_orderkey" ≠ some k0 := by
      intro x hx h
      exact (List.pairwise_cons.1 hd).1 x hx (by rw [hk0, h])
    have key : ∀ index1 : Index,
        (buildOrders start_date end_date (o :: rest) index
          = buildOrders start_date end_date rest index1) →
        mapFind index1 k0
          = (if inWindow start_date end_date o = true then mapFind o "o_custkey"
             else mapFind index k0) →
        (∀ k, k ≠ k0 → mapFind index1 k = mapFind index k) →
        ∃ index', buildOrders start_date end_date (o :: rest) index = .ok index' ∧
          (∀ k, (∀ x ∈ o :: rest, mapFind x "o_orderkey" ≠ some k) →
            mapFind index' k = mapFind index k) ∧
          (∀ x ∈ o :: rest, ∀ k, mapFind x "o_orderkey" = some k →
            mapFind index' k
              = if inWindow start_date end_date x = true then mapFind x "o_custkey"
                else mapFind index k) := by
      intro index1 hstep hk hother
      obtain ⟨index', hb, h1, h2⟩ := ih hrest hdr index1
      refine ⟨index', by rw [hstep, hb], ?_, ?_⟩
      · intro k hk'
        have hne : k ≠ k0 := by
          intro h
          exact hk' o (List.mem_cons_self _ _) (by rw [hk0, h])
        rw [h1 k (fun x hx => hk' x (List.mem_cons_of_mem _ hx)), hother k hne]
      · intro x hx k hxk
        rcases List.mem_cons.1 hx with h | h
        · subst h
          have hkk : k = k0 := by
            rw [hk0] at hxk; injection hxk with hxk; exact hxk.symm
          subst hkk
          rw [h1 k hdo, hk]
        · have hne : k ≠ k0 := by
            intro hh
            exact hdo x h (by rw [hxk, hh])
          rw [h2 x h k hxk, hother k hne]
    by_cases hw : inWindow start_date end_date o = true
    · apply key (mapAssign index k0 c0)
      · unfold inWindow at hw
        cases hdate : mapFind o "o_orderdate" with
        | none => rw [hdate] at hw; exact absurd hw (by simp)
        | some d =>
          rw [hdate] at hw
          rw [buildOrders, if_pos (count_of_find hdate), mapAt_of_find hdate]
          simp only [bind, Except.bind]
          rw [if_pos (by simpa using hw), mapAt_of_find hc0, mapAt_of_find hk0]
      · rw [mapFind_mapAssign, if_pos rfl, if_pos hw, hc0]
      · intro k hk
        rw [mapFind_mapAssign, if_neg hk]
    · apply key index
      · unfold inWindow at hw
        cases hdate : mapFind o "o_orderdate" with
        | none => rw [buildOrders, if_neg (by rw [count_of_none hdate]; simp)]
        | some d =>
          rw [hdate] at hw
          rw [buildOrders, if_pos (count_of_find hdate), mapAt_of_find hdate]
          simp only [bind, Except.bind]
          rw [if_neg (by simpa using hw)]
      · rw [if_neg hw]
      · intro k _; rfl

/-- C6 (date boundary of the order index): for `start_date < end_date` given as
10-character strings and every order table with distinct order keys (each row carrying
its key and customer), the index is built, an order dated exactly `start_date` is in it,
mapped to its customer key, an order dated exactly `end_date` is absent from it, and in
general an order is in the index (mapped to its customer key) exactly when the first 10
characters `p` of its date satisfy `start_date ≤ p < end_date` lexicographically. -/
theorem date_boundary (start_date end_date : String) (orders_data : Table)
    (hlt : start_date < end_date) (hs : start_date.length = 10) (he : end_date.length = 10)
    (hf : ∀ o ∈ orders_data, hasFields o ["o_orderkey", "o_custkey"] = true)
    (hd : orders_data.Pairwise
      (fun a b => mapFind a "o_orderkey" ≠ mapFind b "o_orderkey")) :
    ∃ order_to_cust, buildOrders start_date end_date orders_data [] = .ok order_to_cust ∧
      ∀ o ∈ orders_data, ∀ key cust, mapFind o "o_orderkey" = some key →
        mapFind o "o_custkey" = some cust →
        (mapFind o "o_orderdate" = some start_date → mapFind order_to_cust key = some cust) ∧
        (mapFind o "o_orderdate" = some end_date → mapFind order_to_cust key = none) ∧
        (mapFind order_to_cust key = some cust ↔ inWindow start_date end_date o = true) ∧
        (mapFind order_to_cust key = none ↔ inWindow start_date end_date o = false) := by
  obtain ⟨index', hb, _, h2⟩ := buildOrders_spec start_date end_date orders_data hf hd []
  refine ⟨index', hb, ?_⟩
  intro o ho key cust hkey hcust
  have hfind := h2 o ho key hkey
  have hin : inWindow start_date end_date o = true → mapFind index' key = some cust := by
    intro hw; rw [hfind, if_pos hw, hcust]
  have hout : inWindow start_date end_date o = false → mapFind index' key = none := by
    intro hw; rw [hfind, if_neg (by rw [hw]; simp)]; rfl
  refine ⟨?_, ?_, ?_, ?_⟩
  · intro hdate
    apply hin
    unfold inWindow
    rw [hdate]
    simp only [substr0_of_length hs, decide_eq_true_eq]
    exact ⟨le_refl _, hlt⟩
  · intro hdate
    apply hout
    unfold inWindow
    rw [hdate]
    simp only [substr0_of_length he, decide_eq_false_iff_not]
    exact fun h => lt_irrefl _ h.2
  · constructor
    · intro h
      by_contra hw
      have hw' : inWindow start_date end_date o = false := by simpa using hw
      rw [hout hw'] at h
      exact Option.noConfusion h
    · exact hin
  · constructor
    · intro h
      by_contra hw
      have hw' : inWindow start_date end_date o = true := by simpa using hw
      rw [hin hw'] at h
      exact Option.noConfusion h
    · exact hout

/-- C6, concrete run: of three orders the one dated `start_date` is indexed, the one
dated `end_date` and the one without date are not. -/
theorem date_boundary_witness :
    ∃ order_to_cust, buildOrders "1994-01-01" "1995-01-01" ordersBoundary [] = .ok order_to_cust ∧
      mapFind order_to_cust "1" = some "7" ∧ mapFind order_to_cust "2" = none := by
  obtain ⟨idx, hb, h⟩ := date_boundary "1994-01-01" "1995-01-01" ordersBoundary (by decide!)
    (by decide) (by decide) (by decide!) (by unfold ordersBoundary; simp [mapFind])
  refine ⟨idx, hb, ?_, ?_⟩
  · exact (h [("o_orderkey", "1"), ("o_custkey", "7"), ("o_orderdate", "1994-01-01")]
      (by simp [ordersBoundary]) "1" "7" (by decide) (by decide)).1 (by decide)
  · exact (h [("o_orderkey", "2"), ("o_custkey", "7"), ("o_orderdate", "1995-01-01")]
      (by simp [ordersBoundary]) "2" "7" (by decide) (by decide)).2.1 (by decide)

/-- C7, counterexample: the order dated `1994-13-45`, which is no calendar date, is put
into the index for the window from `1994-01-01` to `1995-01-01`, and the line item on
that order is counted. -/
theorem malformed_date_indexed :
    buildOrders "1994-01-01" "1995-01-01" ordersBadDate [] = .ok [("1", "7")] ∧
    executeQuery5 stodDecimal "ASIA" "1994-01-01" "1995-01-01" 1 customerEx ordersBadDate
      lineitemEx supplierEx nationEx regionEx [] = .ok (true, [("INDIA", 90)]) := by
  decide!

/-- C7 as amended (missing or out-of-window order dates): an order row whose
`o_orderdate` field is absent, or whose first 10 characters `p` do not satisfy
`start_date ≤ p < end_date` lexicographically, is silently dropped: the order loop
raises no error for it and continues with the index unchanged. The value is never
checked to be a calendar date: a row whose first 10 characters lie in the window is
indexed under its order key. -/
theorem order_row_dropped (start_date end_date : String) (o : Row) (rest : Table)
    (order_to_cust : Index) :
    ((mapFind o "o_orderdate" = none ∨
        ∃ d, mapFind o "o_orderdate" = some d ∧
          ¬ (start_date ≤ substr0 d 10 ∧ substr0 d 10 < end_date)) →
      buildOrders start_date end_date (o :: rest) order_to_cust
        = buildOrders start_date end_date rest order_to_cust) ∧
    (∀ d key cust, mapFind o "o_orderdate" = some d →
      (start_date ≤ substr0 d 10 ∧ substr0 d 10 < end_date) →
      mapFind o "o_orderkey" = some key → mapFind o "o_custkey" = some cust →
      buildOrders start_date end_date (o :: rest) order_to_cust
        = buildOrders start_date end_date rest (mapAssign order_to_cust key cust)) := by
  constructor
  · rintro (h | ⟨d, hd, hout⟩)
    · rw [buildOrders, if_neg (by rw [count_of_none h]; simp)]
    · rw [buildOrders, if_pos (count_of_find hd), mapAt_of_find hd]
      simp only [bind, Except.bind]
      rw [if_neg hout]
  · intro d key cust hd hin hkey hcust
    rw [buildOrders, if_pos (count_of_find hd), mapAt_of_find hd]
    simp only [bind, Except.bind]
    rw [if_pos hin, mapAt_of_find hcust, mapAt_of_find hkey]

/-- C7 as amended, concrete run: an order without date and one dated `junk` leave the
index as it was. -/
theorem order_row_dropped_witness :
    buildOrders "1994-01-01" "1995-01-01" [[("o_orderkey", "3"), ("o_custkey", "7")]] []
      = .ok [] ∧
    buildOrders "1994-01-01" "1995-01-01"
      [[("o_orderkey", "3"), ("o_custkey", "7"), ("o_orderdate", "junk")]] [] = .ok [] :=
  ⟨(order_row_dropped "1994-01-01" "1995-01-01" [("o_orderkey", "3"), ("o_custkey", "7")] []
      []).1 (Or.inl (by decide)),
   (order_row_dropped "1994-01-01" "1995-01-01"
      [("o_orderkey", "3"), ("o_custkey", "7"), ("o_orderdate", "junk")] [] []).1
      (Or.inr ⟨"junk", by decide, by decide!⟩)⟩


/-! ## Rows that contribute nothing -/

/-- C8 (row-level inconsistency), evaluation of the code: a line item without
`l_suppkey` on an indexed order makes the run end in `std::out_of_range`, a
non-numeric price on a qualifying line item makes it end in `std::invalid_argument`,
and a nation row without `n_name` makes it end in `std::out_of_range`. -/
theorem malformed_row_raises :
    executeQuery5 stodDecimal "ASIA" "1994-01-01" "1995-01-01" 1 customerEx ordersEx
      lineitemShort supplierEx nationEx regionEx [] = .error .out_of_range ∧
    executeQuery5 stodDecimal "ASIA" "1994-01-01" "1995-01-01" 1 customerEx ordersEx
      lineitemBadPrice supplierEx nationEx regionEx [] = .error .invalid_argument ∧
    executeQuery5 stodDecimal "ASIA" "1994-01-01" "1995-01-01" 1 customerEx ordersEx
      lineitemEx supplierEx nationShort regionEx [] = .error .out_of_range := by
  decide!

section Remove

variable (stod : String → Option ℚ) (target_r_key : String)
  (order_to_cust cust_to_nation supp_to_nation nation_to_name nation_to_region : Index)

theorem contribs_remove (pre post : Table) (li : Row)
    (h : scanItem stod target_r_key order_to_cust cust_to_nation supp_to_nation nation_to_name
      nation_to_region [] li = .ok []) :
    contribs stod target_r_key order_to_cust cust_to_nation supp_to_nation nation_to_name
        nation_to_region (pre ++ li :: post)
      = contribs stod target_r_key order_to_cust cust_to_nation supp_to_nation nation_to_name
          nation_to_region (pre ++ post) := by
  rw [contribs_append, contribs_append]
  have : contribs stod target_r_key order_to_cust cust_to_nation supp_to_nation nation_to_name
        nation_to_region (li :: post)
      = contribs stod target_r_key order_to_cust cust_to_nation supp_to_nation nation_to_name
          nation_to_region post := by
    rw [contribs, h]
    simp only [bind, Except.bind]
    cases contribs stod target_r_key order_to_cust cust_to_nation supp_to_nation nation_to_name
        nation_to_region post with
    | error e => rfl
    | ok cs => rfl
  rw [this]

end Remove

/-- Removing a line item to which the scan body adds nothing does not change the run. -/
theorem executeQuery5_remove (stod : String → Option ℚ) (r_name start_date end_date : String)
    (num_threads : Int) (customer_data orders_data supplier_data nation_data region_data : Table)
    (pre post : Table) (li : Row) (results : Results)
    (hT : 1 ≤ num_threads) (hT2 : num_threads < 2 ^ 31)
    (hN : (pre ++ li :: post).length < 2 ^ 31) (hR : Sorted results)
    (h : ∀ target nation_to_name nation_to_region cust_to_nation supp_to_nation order_to_cust,
      resolveRegion r_name region_data "" = .ok target →
      buildNation nation_data ([], []) = .ok (nation_to_name, nation_to_region) →
      buildIndex "c_custkey" "c_nationkey" customer_data [] = .ok cust_to_nation →
      buildIndex "s_suppkey" "s_nationkey" supplier_data [] = .ok supp_to_nation →
      buildOrders start_date end_date orders_data [] = .ok order_to_cust →
      scanItem stod target order_to_cust cust_to_nation supp_to_nation nation_to_name
        nation_to_region [] li = .ok []) :
    executeQuery5 stod r_name start_date end_date num_threads customer_data orders_data
        (pre ++ li :: post) supplier_data nation_data region_data results
      = executeQuery5 stod r_name start_date end_date num_threads customer_data orders_data
          (pre ++ post) supplier_data nation_data region_data results := by
  have hN2 : (pre ++ post).length < 2 ^ 31 := by
    simp only [List.length_append, List.length_cons] at hN ⊢
    omega
  rw [executeQuery5_eq_reference stod r_name start_date end_date num_threads customer_data
      orders_data (pre ++ li :: post) supplier_data nation_data region_data results hT hT2 hN hR,
    executeQuery5_eq_reference stod r_name start_date end_date num_threads customer_data
      orders_data (pre ++ post) supplier_data nation_data region_data results hT hT2 hN2 hR]
  unfold referenceQuery5
  cases hreg : resolveRegion r_name region_data "" with
  | error e => rfl
  | ok target =>
    simp only [bind, Except.bind]
    split
    · rfl
    · cases hbn : buildNation nation_data ([], []) with
      | error e => rfl
      | ok maps =>
        obtain ⟨n2name, n2region⟩ := maps
        simp only []
        cases hbc : buildIndex "c_custkey" "c_nationkey" customer_data [] with
        | error e => rfl
        | ok c2n =>
          simp only []
          cases hbs : buildIndex "s_suppkey" "s_nationkey" supplier_data [] with
          | error e => rfl
          | ok s2n =>
            simp only []
            cases hbo : buildOrders start_date end_date orders_data [] with
            | error e => rfl
            | ok o2c =>
              simp only []
              rw [contribs_remove stod target o2c c2n s2n n2name n2region pre post li
                (h target n2name n2region c2n s2n o2c hreg hbn hbc hbs hbo)]


theorem scanItem_skip (stod : String → Option ℚ) (target_r_key : String)
    (order_to_cust cust_to_nation supp_to_nation nation_to_name nation_to_region : Index)
    (li : Row) (acc : Results)
    (h : scanItem stod target_r_key order_to_cust cust_to_nation supp_to_nation nation_to_name
      nation_to_region [] li = .ok []) :
    scanItem stod target_r_key order_to_cust cust_to_nation supp_to_nation nation_to_name
      nation_to_region acc li = .ok acc := by
  rw [scanItem_eq_merge, h]
  rfl

/-- The scan body adds nothing for a line item with a dangling reference. -/
theorem scanItem_dangling (stod : String → Option ℚ) (target_r_key : String)
    (order_to_cust cust_to_nation supp_to_nation nation_to_name nation_to_region : Index)
    (li : Row) (o_key s_key : String)
    (hok : mapFind li "l_orderkey" = some o_key) (hsk : mapFind li "l_suppkey" = some s_key)
    (hdangling : mapFind order_to_cust o_key = none ∨ mapFind supp_to_nation s_key = none ∨
      ∃ c_key, mapFind order_to_cust o_key = some c_key ∧
        mapFind cust_to_nation c_key = none) :
    scanItem stod target_r_key order_to_cust cust_to_nation supp_to_nation nation_to_name
      nation_to_region [] li = .ok [] := by
  unfold scanItem
  rw [mapAt_of_find hok]
  simp only [bind, Except.bind]
  cases h1 : mapFind order_to_cust o_key with
  | none => rw [count_of_none h1]; rfl
  | some c_key =>
    rw [count_of_find h1, if_pos rfl, mapAt_of_find h1, mapAt_of_find hsk]
    simp only []
    have hcond : (mapCount cust_to_nation c_key && mapCount supp_to_nation s_key) = false := by
      rcases hdangling with h | h | ⟨c, hc, h⟩
      · rw [h1] at h; exact Option.noConfusion h
      · rw [count_of_none h]; simp
      · rw [h1] at hc
        injection hc with hc
        subst hc
        rw [count_of_none h]; simp
    rw [hcond]
    rfl

/-- C9 (dangling reference tolerance): a line item that carries its order and supplier
keys and whose order key is not in the date-filtered order index, or whose supplier
key is not in the supplier index, or whose order's customer key is not in the customer
index, is excluded without error: the scan body of `queryWorker` returns the
accumulator unchanged for it, and `executeQuery5`, with any thread count `≥ 1`, gives
the same outcome as on the table with that line item removed. The table size is taken
to fit `int` and the `results` map to be a `std::map` (sorted keys). -/
theorem dangling_reference_excluded (stod : String → Option ℚ)
    (r_name start_date end_date : String) (num_threads : Int)
    (customer_data orders_data supplier_data nation_data region_data : Table)
    (pre post : Table) (li : Row) (results : Results)
    (order_to_cust cust_to_nation supp_to_nation : Index) (o_key s_key : String)
    (hT : 1 ≤ num_threads) (hT2 : num_threads < 2 ^ 31)
    (hN : (pre ++ li :: post).length < 2 ^ 31) (hR : Sorted results)
    (hbc : buildIndex "c_custkey" "c_nationkey" customer_data [] = .ok cust_to_nation)
    (hbs : buildIndex "s_suppkey" "s_nationkey" supplier_data [] = .ok supp_to_nation)
    (hbo : buildOrders start_date end_date orders_data [] = .ok order_to_cust)
    (hok : mapFind li "l_orderkey" = some o_key) (hsk : mapFind li "l_suppkey" = some s_key)
    (hdangling : mapFind order_to_cust o_key = none ∨ mapFind supp_to_nation s_key = none ∨
      ∃ c_key, mapFind order_to_cust o_key = some c_key ∧
        mapFind cust_to_nation c_key = none) :
    (∀ target_r_key nation_to_name nation_to_region acc,
      scanItem stod target_r_key order_to_cust cust_to_nation supp_to_nation nation_to_name
        nation_to_region acc li = .ok acc) ∧
    executeQuery5 stod r_name start_date end_date num_threads customer_data orders_data
        (pre ++ li :: post) supplier_data nation_data region_data results
      = executeQuery5 stod r_name start_date end_date num_threads customer_data orders_data
          (pre ++ post) supplier_data nation_data region_data results := by
  constructor
  · intro target n2name n2region acc
    exact scanItem_skip stod target order_to_cust cust_to_nation supp_to_nation n2name
      n2region li acc (scanItem_dangling stod target order_to_cust cust_to_nation
        supp_to_nation n2name n2region li o_key s_key hok hsk hdangling)
  · apply executeQuery5_remove stod r_name start_date end_date num_threads customer_data
      orders_data supplier_data nation_data region_data pre post li results hT hT2 hN hR
    intro target n2name n2region c2n s2n o2c _ _ h2 h3 h4
    rw [hbc] at h2
    rw [hbs] at h3
    rw [hbo] at h4
    injection h2 with h2
    injection h3 with h3
    injection h4 with h4
    subst h2 h3 h4
    exact scanItem_dangling stod target order_to_cust cust_to_nation supp_to_nation n2name
      n2region li o_key s_key hok hsk hdangling

/-- C9, concrete run: the line item on the unknown order `9`, between two qualifying
line items, can be removed without changing the totals. -/
theorem dangling_reference_excluded_witness :
    executeQuery5 stodDecimal "ASIA" "1994-01-01" "1995-01-01" 2 customerEx ordersEx
        ([itemQualifying] ++ itemDangling :: [itemQualifying]) supplierEx nationEx regionEx []
      = executeQuery5 stodDecimal "ASIA" "1994-01-01" "1995-01-01" 2 customerEx ordersEx
          ([itemQualifying] ++ [itemQualifying]) supplierEx nationEx regionEx [] :=
  (dangling_reference_excluded stodDecimal "ASIA" "1994-01-01" "1995-01-01" 2 customerEx
    ordersEx supplierEx nationEx regionEx [itemQualifying] [itemQualifying] itemDangling []
    [("1", "7")] [("7", "8")] [("5", "8")] "9" "5" (by decide) (by decide) (by decide)
    sorted_nil (by decide!) (by decide!) (by decide!) (by decide) (by decide)
    (Or.inl (by decide))).2

/-- C10 (cross-nation exclusion): a line item whose customer's nation key (through the
order index and the customer index) differs from its supplier's nation key (through
the supplier index) never contributes, whatever the region and nation tables are: the
scan body returns the accumulator unchanged for it, and `executeQuery5`, with any
thread count `≥ 1`, gives the same outcome as on the table with that line item removed.
The table size is taken to fit `int` and the `results` map to be a `std::map` (sorted
keys). -/
theorem cross_nation_excluded (stod : String → Option ℚ)
    (r_name start_date end_date : String) (num_threads : Int)
    (customer_data orders_data supplier_data nation_data region_data : Table)
    (pre post : Table) (li : Row) (results : Results)
    (order_to_cust cust_to_nation supp_to_nation : Index)
    (o_key c_key s_key c_nat s_nat : String)
    (hT : 1 ≤ num_threads) (hT2 : num_threads < 2 ^ 31)
    (hN : (pre ++ li :: post).length < 2 ^ 31) (hR : Sorted results)
    (hbc : buildIndex "c_custkey" "c_nationkey" customer_data [] = .ok cust_to_nation)
    (hbs : buildIndex "s_suppkey" "s_nationkey" supplier_data [] = .ok supp_to_nation)
    (hbo : buildOrders start_date end_date orders_data [] = .ok order_to_cust)
    (hok : mapFind li "l_orderkey" = some o_key)
    (hck : mapFind order_to_cust o_key = some c_key)
    (hcn : mapFind cust_to_nation c_key = some c_nat)
    (hsk : mapFind li "l_suppkey" = some s_key)
    (hsn : mapFind supp_to_nation s_key = some s_nat)
    (hdiff : c_nat ≠ s_nat) :
    (∀ target_r_key nation_to_name nation_to_region acc,
      scanItem stod target_r_key order_to_cust cust_to_nation supp_to_nation nation_to_name
        nation_to_region acc li = .ok acc) ∧
    executeQuery5 stod r_name start_date end_date num_threads customer_data orders_data
        (pre ++ li :: post) supplier_data nation_data region_data results
      = executeQuery5 stod r_name start_date end_date num_threads customer_data orders_data
          (pre ++ post) supplier_data nation_data region_data results := by
  have hskip : ∀ target n2name n2region,
      scanItem stod target order_to_cust cust_to_nation supp_to_nation n2name n2region [] li
        = .ok [] := by
    intro target n2name n2region
    unfold scanItem
    rw [mapAt_of_find hok]
    simp only [bind, Except.bind]
    rw [count_of_find hck, if_pos rfl, mapAt_of_find hck, mapAt_of_find hsk]
    simp only []
    rw [count_of_find hcn, count_of_find hsn, mapAt_of_find hcn, mapAt_of_find hsn]
    simp only [Bool.and_self, if_true]
    rw [if_neg (fun h => hdiff h.1)]
    rfl
  constructor
  · intro target n2name n2region acc
    exact scanItem_skip stod target order_to_cust cust_to_nation supp_to_nation n2name
      n2region li acc (hskip target n2name n2region)
  · apply executeQuery5_remove stod r_name start_date end_date num_threads customer_data
      orders_data supplier_data nation_data region_data pre post li results hT hT2 hN hR
    intro target n2name n2region c2n s2n o2c _ _ h2 h3 h4
    rw [hbc] at h2
    rw [hbs] at h3
    rw [hbo] at h4
    injection h2 with h2
    injection h3 with h3
    injection h4 with h4
    subst h2 h3 h4
    exact hskip target n2name n2region

/-- C10, concrete run: the customer of order `1` is in nation `8`, supplier `6` in
nation `9`; the line item joining them can be removed without changing the totals. -/
theorem cross_nation_excluded_witness :
    executeQuery5 stodDecimal "ASIA" "1994-01-01" "1995-01-01" 1 customerEx ordersEx
        ([itemQualifying] ++ itemCross :: []) supplierEx2 nationEx regionEx []
      = executeQuery5 stodDecimal "ASIA" "1994-01-01" "1995-01-01" 1 customerEx ordersEx
          ([itemQualifying] ++ []) supplierEx2 nationEx regionEx [] :=
  (cross_nation_excluded stodDecimal "ASIA" "1994-01-01" "1995-01-01" 1 customerEx
    ordersEx supplierEx2 nationEx regionEx [itemQualifying] [] itemCross []
    [("1", "7")] [("7", "8")] [("5", "8"), ("6", "9")] "1" "7" "6" "8" "9"
    (by decide) (by decide) (by decide) sorted_nil (by decide!) (by decide!) (by decide!)
    (by decide) (by decide) (by decide) (by decide) (by decide) (by decide)).2

/-! ## Region mismatch and the key set of the result -/

/-- C11 (region mismatch exclusion): a line item whose customer and supplier resolve to
the same nation key `n`, where the nation-to-region map has no entry for `n` or sends
it to a key other than the target region key, contributes nothing: the scan body
returns the accumulator unchanged for it, and `executeQuery5`, with any thread count
`≥ 1`, gives the same outcome as on the table with that line item removed. The table
size is taken to fit `int` and the `results` map to be a `std::map` (sorted keys). -/
theorem region_mismatch_excluded (stod : String → Option ℚ)
    (r_name start_date end_date : String) (num_threads : Int)
    (customer_data orders_data supplier_data nation_data region_data : Table)
    (pre post : Table) (li : Row) (results : Results)
    (target_r_key : String)
    (order_to_cust cust_to_nation supp_to_nation nation_to_name nation_to_region : Index)
    (o_key c_key s_key n : String)
    (hT : 1 ≤ num_threads) (hT2 : num_threads < 2 ^ 31)
    (hN : (pre ++ li :: post).length < 2 ^ 31) (hR : Sorted results)
    (hreg : resolveRegion r_name region_data "" = .ok target_r_key)
    (hbn : buildNation nation_data ([], []) = .ok (nation_to_name, nation_to_region))
    (hbc : buildIndex "c_custkey" "c_nationkey" customer_data [] = .ok cust_to_nation)
    (hbs : buildIndex "s_suppkey" "s_nationkey" supplier_data [] = .ok supp_to_nation)
    (hbo : buildOrders start_date end_date orders_data [] = .ok order_to_cust)
    (hok : mapFind li "l_orderkey" = some o_key)
    (hck : mapFind order_to_cust o_key = some c_key)
    (hcn : mapFind cust_to_nation c_key = some n)
    (hsk : mapFind li "l_suppkey" = some s_key)
    (hsn : mapFind supp_to_nation s_key = some n)
    (hmis : mapFind nation_to_region n ≠ some target_r_key) :
    (∀ acc, scanItem stod target_r_key order_to_cust cust_to_nation supp_to_nation
        nation_to_name nation_to_region acc li = .ok acc) ∧
    executeQuery5 stod r_name start_date end_date num_threads customer_data orders_data
        (pre ++ li :: post) supplier_data nation_data region_data results
      = executeQuery5 stod r_name start_date end_date num_threads customer_data orders_data
          (pre ++ post) supplier_data nation_data region_data results := by
  have hskip : scanItem stod target_r_key order_to_cust cust_to_nation supp_to_nation
      nation_to_name nation_to_region [] li = .ok [] := by
    unfold scanItem
    rw [mapAt_of_find hok]
    simp only [bind, Except.bind]
    rw [count_of_find hck, if_pos rfl, mapAt_of_find hck, mapAt_of_find hsk]
    simp only []
    rw [count_of_find hcn, count_of_find hsn, mapAt_of_find hcn, mapAt_of_find hsn]
    simp only [Bool.and_self, if_true]
    cases hr : mapFind nation_to_region n with
    | none =>
      rw [count_of_none hr]
      simp
      rfl
    | some r =>
      rw [count_of_find hr, mapAt_of_find hr]
      simp only [and_self, if_true]
      rw [if_neg (fun h => hmis (by rw [hr, h]))]
      rfl
  constructor
  · intro acc
    exact scanItem_skip stod target_r_key order_to_cust cust_to_nation supp_to_nation
      nation_to_name nation_to_region li acc hskip
  · apply executeQuery5_remove stod r_name start_date end_date num_threads customer_data
      orders_data supplier_data nation_data region_data pre post li results hT hT2 hN hR
    intro target n2name n2region c2n s2n o2c h0 h1 h2 h3 h4
    rw [hreg] at h0
    rw [hbn] at h1
    rw [hbc] at h2
    rw [hbs] at h3
    rw [hbo] at h4
    injection h0 with h0
    injection h1 with h1
    injection h1 with h1a h1b
    injection h2 with h2
    injection h3 with h3
    injection h4 with h4
    subst h0 h1a h1b h2 h3 h4
    exact hskip

/-- C11, concrete run: customer and supplier are both in nation `8`, which lies in
region `2`, while the requested region `EUROPE` has key `3`; the line item can be
removed without changing the outcome. -/
theorem region_mismatch_excluded_witness :
    executeQuery5 stodDecimal "EUROPE" "1994-01-01" "1995-01-01" 1 customerEx ordersEx
        ([] ++ itemQualifying :: []) supplierEx nationEx regionEx2 []
      = executeQuery5 stodDecimal "EUROPE" "1994-01-01" "1995-01-01" 1 customerEx ordersEx
          ([] ++ []) supplierEx nationEx regionEx2 [] :=
  (region_mismatch_excluded stodDecimal "EUROPE" "1994-01-01" "1995-01-01" 1 customerEx
    ordersEx supplierEx nationEx regionEx2 [] [] itemQualifying [] "3"
    [("1", "7")] [("7", "8")] [("5", "8")] [("8", "INDIA")] [("8", "2")] "1" "7" "5" "8"
    (by decide) (by decide) (by decide) sorted_nil (by decide!) (by decide!) (by decide!)
    (by decide!) (by decide!) (by decide) (by decide) (by decide) (by decide) (by decide)
    (by decide)).2


/-- A normal return of the scan body on an empty accumulator is either no entry, for
a line item that does not qualify, or one entry under the name of its nation. -/
theorem scanItem_ok_cases (stod : String → Option ℚ) (target_r_key : String)
    (order_to_cust cust_to_nation supp_to_nation nation_to_name nation_to_region : Index)
    (li : Row) (c : Results)
    (h : scanItem stod target_r_key order_to_cust cust_to_nation supp_to_nation nation_to_name
      nation_to_region [] li = .ok c) :
    (c = [] ∧ joinName target_r_key order_to_cust cust_to_nation supp_to_nation nation_to_name
        nation_to_region li = none) ∨
    (∃ X v, c = [(X, v)] ∧ joinName target_r_key order_to_cust cust_to_nation supp_to_nation
        nation_to_name nation_to_region li = some X) := by
  unfold scanItem at h
  unfold joinName joinNation
  cases h0 : mapFind li "l_orderkey" with
  | none => rw [mapAt_of_none h0] at h; exact Except.noConfusion h
  | some o_key =>
    rw [mapAt_of_find h0] at h
    simp only [bind, Except.bind, Option.bind] at h ⊢
    cases h1 : mapFind order_to_cust o_key with
    | none =>
      rw [count_of_none h1] at h
      simp only [Bool.false_eq_true, if_false, pure, Except.pure] at h
      injection h with h
      exact Or.inl ⟨h.symm, rfl⟩
    | some c_key =>
      rw [count_of_find h1, if_pos rfl, mapAt_of_find h1] at h
      simp only [] at h ⊢
      cases h2 : mapFind li "l_suppkey" with
      | none => rw [mapAt_of_none h2] at h; exact Except.noConfusion h
      | some s_key =>
        rw [mapAt_of_find h2] at h
        simp only [] at h ⊢
        cases h3 : mapFind cust_to_nation c_key with
        | none =>
          rw [count_of_none h3] at h
          simp only [Bool.false_and, Bool.false_eq_true, if_false, pure, Except.pure] at h
          injection h with h
          exact Or.inl ⟨h.symm, rfl⟩
        | some c_nat =>
          simp only [] at h ⊢
          cases h4 : mapFind supp_to_nation s_key with
          | none =>
            rw [count_of_none h4] at h
            simp only [Bool.and_false, Bool.false_eq_true, if_false, pure, Except.pure] at h
            injection h with h
            exact Or.inl ⟨h.symm, rfl⟩
          | some s_nat =>
            rw [count_of_find h3, count_of_find h4, mapAt_of_find h3, mapAt_of_find h4] at h
            simp only [Bool.and_self, if_true] at h ⊢
            by_cases h5 : c_nat = s_nat
            · subst h5
              cases h6 : mapFind nation_to_region c_nat with
              | none =>
                rw [count_of_none h6] at h
                simp only [Bool.false_eq_true, and_false, if_false, pure, Except.pure] at h
                injection h with h
                left
                refine ⟨h.symm, ?_⟩
                simp
              | some r =>
                rw [count_of_find h6, mapAt_of_find h6] at h
                simp only [and_self, if_true] at h
                by_cases h7 : r = target_r_key
                · subst h7
                  rw [if_pos rfl] at h
                  right
                  cases h8 : mapAt li "l_extendedprice" with
                  | error e => rw [h8] at h; exact Except.noConfusion h
                  | ok ps =>
                    rw [h8] at h
                    simp only [] at h
                    cases h9 : stodE stod ps with
                    | error e => rw [h9] at h; exact Except.noConfusion h
                    | ok p =>
                      rw [h9] at h
                      simp only [] at h
                      cases h10 : mapAt li "l_discount" with
                      | error e => rw [h10] at h; exact Except.noConfusion h
                      | ok ds =>
                        rw [h10] at h
                        simp only [] at h
                        cases h11 : stodE stod ds with
                        | error e => rw [h11] at h; exact Except.noConfusion h
                        | ok d =>
                          rw [h11] at h
                          simp only [] at h
                          cases h12 : mapFind nation_to_name c_nat with
                          | none => rw [mapAt_of_none h12] at h; exact Except.noConfusion h
                          | some X =>
                            rw [mapAt_of_find h12] at h
                            simp only [pure, Except.pure, addAt] at h
                            injection h with h
                            exact ⟨X, 0 + p * (1 - d), h.symm, by simp [h12]⟩
                · rw [if_neg h7] at h
                  simp only [pure, Except.pure] at h
                  injection h with h
                  left
                  refine ⟨h.symm, ?_⟩
                  simp [h7]
            · rw [if_neg (fun hh => h5 hh.1)] at h
              simp only [pure, Except.pure] at h
              injection h with h
              left
              refine ⟨h.symm, ?_⟩
              simp [h5]

/-- The names under which a normally returning scan adds revenue are the nation names
of the qualifying line items. -/
theorem contribs_keys (stod : String → Option ℚ) (target_r_key : String)
    (order_to_cust cust_to_nation supp_to_nation nation_to_name nation_to_region : Index)
    (items : List Row) (cs : List (String × ℚ))
    (h : contribs stod target_r_key order_to_cust cust_to_nation supp_to_nation nation_to_name
      nation_to_region items = .ok cs) (X : String) :
    (∃ e ∈ cs, e.1 = X) ↔
      ∃ li ∈ items, joinName target_r_key order_to_cust cust_to_nation supp_to_nation
        nation_to_name nation_to_region li = some X := by
  induction items generalizing cs with
  | nil =>
    simp only [contribs, pure, Except.pure] at h
    injection h with h
    subst h
    simp
  | cons li rest ih =>
    rw [contribs] at h
    cases hc : scanItem stod target_r_key order_to_cust cust_to_nation supp_to_nation
        nation_to_name nation_to_region [] li with
    | error e => rw [hc] at h; exact Except.noConfusion h
    | ok c =>
      rw [hc] at h
      simp only [bind, Except.bind] at h
      cases hr : contribs stod target_r_key order_to_cust cust_to_nation supp_to_nation
          nation_to_name nation_to_region rest with
      | error e => rw [hr] at h; exact Except.noConfusion h
      | ok cr =>
        rw [hr] at h
        simp only [pure, Except.pure] at h
        injection h with h
        subst h
        have ih := ih cr hr
        have hcase := scanItem_ok_cases stod target_r_key order_to_cust cust_to_nation
          supp_to_nation nation_to_name nation_to_region li c hc
        constructor
        · rintro ⟨e, he, heX⟩
          rcases List.mem_append.1 he with h1 | h1
          · rcases hcase with ⟨hnil, _⟩ | ⟨Y, v, hcv, hj⟩
            · rw [hnil] at h1; exact absurd h1 (List.not_mem_nil _)
            · rw [hcv, List.mem_singleton] at h1
              subst h1
              exact ⟨li, List.mem_cons_self _ _, by rw [hj, ← heX]⟩
          · obtain ⟨x, hx, hxj⟩ := ih.1 ⟨e, h1, heX⟩
            exact ⟨x, List.mem_cons_of_mem _ hx, hxj⟩
        · rintro ⟨x, hx, hxj⟩
          rcases List.mem_cons.1 hx with h1 | h1
          · subst h1
            rcases hcase with ⟨_, hnone⟩ | ⟨Y, v, hcv, hj⟩
            · rw [hnone] at hxj; exact Option.noConfusion hxj
            · rw [hj] at hxj
              injection hxj with hxj
              exact ⟨(Y, v), List.mem_append_left _ (by rw [hcv]; exact List.mem_singleton.2 rfl),
                hxj⟩
          · obtain ⟨e, he, heX⟩ := ih.2 ⟨x, h1, hxj⟩
            exact ⟨e, List.mem_append_right _ he, heX⟩

/-- A `true` return of the single-scan reference run: the region resolved to a
non-empty key, the indexes were built, the scan returned normally with additions `cs`,
and the final map is `results` with `cs` added. -/
theorem referenceQuery5_true (stod : String → Option ℚ) (r_name start_date end_date : String)
    (customer_data orders_data lineitem_data supplier_data nation_data region_data : Table)
    (results final : Results)
    (h : referenceQuery5 stod r_name start_date end_date customer_data orders_data
      lineitem_data supplier_data nation_data region_data results = .ok (true, final)) :
    ∃ target_r_key nation_to_name nation_to_region cust_to_nation supp_to_nation
        order_to_cust cs,
      resolveRegion r_name region_data "" = .ok target_r_key ∧ target_r_key ≠ "" ∧
      buildNation nation_data ([], []) = .ok (nation_to_name, nation_to_region) ∧
      buildIndex "c_custkey" "c_nationkey" customer_data [] = .ok cust_to_nation ∧
      buildIndex "s_suppkey" "s_nationkey" supplier_data [] = .ok supp_to_nation ∧
      buildOrders start_date end_date orders_data [] = .ok order_to_cust ∧
      contribs stod target_r_key order_to_cust cust_to_nation supp_to_nation nation_to_name
        nation_to_region lineitem_data = .ok cs ∧
      final = mergeInto results cs ∧
      ∀ other, referenceQuery5 stod r_name start_date end_date customer_data orders_data
        lineitem_data supplier_data nation_data region_data other
          = .ok (true, mergeInto other cs) := by
  unfold referenceQuery5 at h ⊢
  cases hreg : resolveRegion r_name region_data "" with
  | error e => rw [hreg] at h; exact Except.noConfusion h
  | ok target =>
    rw [hreg] at h
    simp only [bind, Except.bind] at h ⊢
    by_cases ht : target = ""
    · rw [if_pos ht] at h
      simp only [pure, Except.pure] at h
      injection h with h
      injection h with h1 _
      exact Bool.noConfusion h1
    · rw [if_neg ht] at h
      cases hbn : buildNation nation_data ([], []) with
      | error e => rw [hbn] at h; exact Except.noConfusion h
      | ok maps =>
        obtain ⟨n2name, n2region⟩ := maps
        rw [hbn] at h
        simp only [] at h
        cases hbc : buildIndex "c_custkey" "c_nationkey" customer_data [] with
        | error e => rw [hbc] at h; exact Except.noConfusion h
        | ok c2n =>
          rw [hbc] at h
          simp only [] at h
          cases hbs : buildIndex "s_suppkey" "s_nationkey" supplier_data [] with
          | error e => rw [hbs] at h; exact Except.noConfusion h
          | ok s2n =>
            rw [hbs] at h
            simp only [] at h
            cases hbo : buildOrders start_date end_date orders_data [] with
            | error e => rw [hbo] at h; exact Except.noConfusion h
            | ok o2c =>
              rw [hbo] at h
              simp only [] at h
              cases hcs : contribs stod target o2c c2n s2n n2name n2region lineitem_data with
              | error e => rw [hcs] at h; exact Except.noConfusion h
              | ok cs =>
                rw [hcs] at h
                simp only [pure, Except.pure] at h
                injection h with h
                injection h with _ h2
                refine ⟨target, n2name, n2region, c2n, s2n, o2c, cs, rfl, ht, rfl, rfl, rfl,
                  rfl, hcs, h2.symm, ?_⟩
                intro other
                simp only [if_neg ht, hcs]
                rfl


/-- C12 (result key set): for a `results` map that is empty on entry and a call of
`executeQuery5` with `num_threads ≥ 1` that returns `true`, the indexes were built and
a string `X` is a key of the final map if and only if `X` is the nation name of at
least one line item that passes all five join checks; hence a nation without
qualifying line item has no key, and every line that `outputResults` writes is
`X|revenue` for such a name `X`, one line per key. The table size is taken to fit
`int`. -/
theorem result_key_set (stod : String → Option ℚ) (fmt : ℚ → String)
    (r_name start_date end_date : String) (num_threads : Int)
    (customer_data orders_data lineitem_data supplier_data nation_data region_data : Table)
    (final : Results) (hT : 1 ≤ num_threads) (hT2 : num_threads < 2 ^ 31)
    (hN : lineitem_data.length < 2 ^ 31)
    (h : executeQuery5 stod r_name start_date end_date num_threads customer_data orders_data
      lineitem_data supplier_data nation_data region_data [] = .ok (true, final)) :
    ∃ target_r_key nation_to_name nation_to_region cust_to_nation supp_to_nation
        order_to_cust,
      resolveRegion r_name region_data "" = .ok target_r_key ∧
      buildNation nation_data ([], []) = .ok (nation_to_name, nation_to_region) ∧
      buildIndex "c_custkey" "c_nationkey" customer_data [] = .ok cust_to_nation ∧
      buildIndex "s_suppkey" "s_nationkey" supplier_data [] = .ok supp_to_nation ∧
      buildOrders start_date end_date orders_data [] = .ok order_to_cust ∧
      (∀ X, mapFind final X ≠ none ↔
        ∃ li ∈ lineitem_data, joinName target_r_key order_to_cust cust_to_nation
          supp_to_nation nation_to_name nation_to_region li = some X) ∧
      (outputResults fmt true final).2.length = final.length ∧
      (∀ line ∈ (outputResults fmt true final).2, ∃ X v, line = X ++ "|" ++ fmt v ∧
        mapFind final X ≠ none ∧
        ∃ li ∈ lineitem_data, joinName target_r_key order_to_cust cust_to_nation
          supp_to_nation nation_to_name nation_to_region li = some X) := by
  rw [executeQuery5_eq_reference stod r_name start_date end_date num_threads customer_data
    orders_data lineitem_data supplier_data nation_data region_data [] hT hT2 hN sorted_nil] at h
  obtain ⟨target, n2name, n2region, c2n, s2n, o2c, cs, hreg, _, hbn, hbc, hbs, hbo, hcs, hfin,
    _⟩ := referenceQuery5_true stod r_name start_date end_date customer_data orders_data
      lineitem_data supplier_data nation_data region_data [] final h
  have hkeys : ∀ X, mapFind final X ≠ none ↔
      ∃ li ∈ lineitem_data, joinName target o2c c2n s2n n2name n2region li = some X := by
    intro X
    rw [← contribs_keys stod target o2c c2n s2n n2name n2region lineitem_data cs hcs X, hfin,
      mapFind_mergeInto sorted_nil]
    by_cases hX : ∃ e ∈ cs, e.1 = X
    · rw [if_pos hX]
      exact ⟨fun _ => hX, fun _ => by simp⟩
    · rw [if_neg hX]
      exact ⟨fun hh => absurd rfl hh, fun hh => absurd hh hX⟩
  refine ⟨target, n2name, n2region, c2n, s2n, o2c, hreg, hbn, hbc, hbs, hbo, hkeys, ?_, ?_⟩
  · simp [outputResults]
  · intro line hline
    simp only [outputResults, Bool.not_true, Bool.false_eq_true, if_false,
      List.mem_map] at hline
    obtain ⟨e, he, hl⟩ := hline
    have hk : mapFind final e.1 ≠ none := (mem_key_iff_mapFind final e.1).1 ⟨e, he, rfl⟩
    exact ⟨e.1, e.2, hl.symm, hk, (hkeys e.1).1 hk⟩

/-- C12, concrete run: the only key is `INDIA`, the name of the nation of the one
qualifying line item; the nation key `8` is no key of the result. -/
theorem result_key_set_witness :
    (mapFind [("INDIA", (90 : ℚ))] "INDIA" ≠ none ↔
      ∃ li ∈ lineitemEx, joinName "2" [("1", "7")] [("7", "8")] [("5", "8")] [("8", "INDIA")]
        [("8", "2")] li = some "INDIA") ∧
    (mapFind [("INDIA", (90 : ℚ))] "8" ≠ none ↔
      ∃ li ∈ lineitemEx, joinName "2" [("1", "7")] [("7", "8")] [("5", "8")] [("8", "INDIA")]
        [("8", "2")] li = some "8") := by
  obtain ⟨target, n2name, n2region, c2n, s2n, o2c, h0, h1, h2, h3, h4, h5, _⟩ :=
    result_key_set stodDecimal (fun _ => "") "ASIA" "1994-01-01" "1995-01-01" 1 customerEx
      ordersEx lineitemEx supplierEx nationEx regionEx [("INDIA", 90)] (by decide) (by decide)
      (by decide) (by decide!)
  have e0 : resolveRegion "ASIA" regionEx "" = .ok "2" := by decide!
  have e1 : buildNation nationEx ([], []) = .ok ([("8", "INDIA")], [("8", "2")]) := by decide!
  have e2 : buildIndex "c_custkey" "c_nationkey" customerEx [] = .ok [("7", "8")] := by decide!
  have e3 : buildIndex "s_suppkey" "s_nationkey" supplierEx [] = .ok [("5", "8")] := by decide!
  have e4 : buildOrders "1994-01-01" "1995-01-01" ordersEx [] = .ok [("1", "7")] := by decide!
  rw [e0] at h0
  rw [e1] at h1
  rw [e2] at h2
  rw [e3] at h3
  rw [e4] at h4
  injection h0 with h0
  injection h1 with h1
  injection h1 with h1a h1b
  injection h2 with h2
  injection h3 with h3
  injection h4 with h4
  subst h0 h1a h1b h2 h3 h4
  exact ⟨h5 "INDIA", h5 "8"⟩

/-- C20 (accumulation into the caller's map): for every `results` map, empty or not, and
every call of `executeQuery5` with `num_threads ≥ 1` that returns `true`, the same call
on an empty map returns the query totals `fresh`; every key present on entry is still
present afterwards; the final value under each key is its value on entry (`0` if
absent) plus the query total of that name, keys without query total keeping their
value; and a second call on the map left by the first returns `true` with every query
total added twice. The table size is taken to fit `int` and `results` to be a
`std::map` (sorted keys). -/
theorem accumulates_into_results (stod : String → Option ℚ)
    (r_name start_date end_date : String) (num_threads : Int)
    (customer_data orders_data lineitem_data supplier_data nation_data region_data : Table)
    (results final : Results) (hT : 1 ≤ num_threads) (hT2 : num_threads < 2 ^ 31)
    (hN : lineitem_data.length < 2 ^ 31) (hR : Sorted results)
    (h : executeQuery5 stod r_name start_date end_date num_threads customer_data orders_data
      lineitem_data supplier_data nation_data region_data results = .ok (true, final)) :
    ∃ fresh twice,
      executeQuery5 stod r_name start_date end_date num_threads customer_data orders_data
        lineitem_data supplier_data nation_data region_data [] = .ok (true, fresh) ∧
      executeQuery5 stod r_name start_date end_date num_threads customer_data orders_data
        lineitem_data supplier_data nation_data region_data final = .ok (true, twice) ∧
      (∀ X, mapFind results X ≠ none → mapFind final X ≠ none) ∧
      (∀ X, mapFind final X
        = match mapFind fresh X with
          | none => mapFind results X
          | some q => some ((mapFind results X).getD 0 + q)) ∧
      (∀ X, mapFind twice X
        = match mapFind fresh X with
          | none => mapFind results X
          | some q => some ((mapFind results X).getD 0 + 2 * q)) := by
  rw [executeQuery5_eq_reference stod r_name start_date end_date num_threads customer_data
    orders_data lineitem_data supplier_data nation_data region_data results hT hT2 hN hR] at h
  obtain ⟨target, n2name, n2region, c2n, s2n, o2c, cs, _, _, _, _, _, _, _, hfin, hother⟩ :=
    referenceQuery5_true stod r_name start_date end_date customer_data orders_data
      lineitem_data supplier_data nation_data region_data results final h
  have hFS : Sorted final := by rw [hfin]; exact mergeInto_sorted hR cs
  have hfresh : ∀ X, mapFind (mergeInto [] cs) X
      = if ∃ e ∈ cs, e.1 = X then some (keyTotal cs X) else none := by
    intro X
    rw [mapFind_mergeInto sorted_nil]
    by_cases hX : ∃ e ∈ cs, e.1 = X
    · rw [if_pos hX, if_pos hX]; simp [mapFind]
    · rw [if_neg hX, if_neg hX]; rfl
  have hfinal : ∀ X, mapFind final X
      = if ∃ e ∈ cs, e.1 = X then some ((mapFind results X).getD 0 + keyTotal cs X)
        else mapFind results X := by
    intro X
    rw [hfin, mapFind_mergeInto hR]
  refine ⟨mergeInto [] cs, mergeInto final cs, ?_, ?_, ?_, ?_, ?_⟩
  · rw [executeQuery5_eq_reference stod r_name start_date end_date num_threads customer_data
      orders_data lineitem_data supplier_data nation_data region_data [] hT hT2 hN sorted_nil]
    exact hother []
  · rw [executeQuery5_eq_reference stod r_name start_date end_date num_threads customer_data
      orders_data lineitem_data supplier_data nation_data region_data final hT hT2 hN hFS]
    exact hother final
  · intro X hX
    rw [hfinal]
    by_cases hc : ∃ e ∈ cs, e.1 = X
    · rw [if_pos hc]; simp
    · rw [if_neg hc]; exact hX
  · intro X
    rw [hfinal, hfresh]
    by_cases hc : ∃ e ∈ cs, e.1 = X
    · rw [if_pos hc, if_pos hc]
    · rw [if_neg hc, if_neg hc]
  · intro X
    rw [mapFind_mergeInto hFS, hfinal, hfresh]
    by_cases hc : ∃ e ∈ cs, e.1 = X
    · rw [if_pos hc, if_pos hc, if_pos hc]
      simp only [Option.getD_some]
      congr 1
      ring
    · rw [if_neg hc, if_neg hc, if_neg hc]

/-- C20, concrete run: on a map holding `INDIA 10` and `CHINA 5` one call gives
`INDIA 100`, and a call on that map gives `INDIA 190`, with `CHINA 5` kept. -/
theorem accumulates_into_results_witness :
    ∃ fresh twice,
      executeQuery5 stodDecimal "ASIA" "1994-01-01" "1995-01-01" 1 customerEx ordersEx
        lineitemEx supplierEx nationEx regionEx [] = .ok (true, fresh) ∧
      executeQuery5 stodDecimal "ASIA" "1994-01-01" "1995-01-01" 1 customerEx ordersEx
        lineitemEx supplierEx nationEx regionEx [("CHINA", 5), ("INDIA", 100)]
          = .ok (true, twice) ∧
      mapFind fresh "INDIA" = some 90 ∧ mapFind twice "INDIA" = some 190 ∧
      mapFind twice "CHINA" = some 5 := by
  obtain ⟨fresh, twice, h1, h2, _, _, h5⟩ :=
    accumulates_into_results stodDecimal "ASIA" "1994-01-01" "1995-01-01" 1 customerEx
      ordersEx lineitemEx supplierEx nationEx regionEx [("CHINA", 5), ("INDIA", 10)]
      [("CHINA", 5), ("INDIA", 100)] (by decide) (by decide) (by decide)
      (by unfold Sorted; simp; decide!) (by decide!)
  have e1 : executeQuery5 stodDecimal "ASIA" "1994-01-01" "1995-01-01" 1 customerEx ordersEx
      lineitemEx supplierEx nationEx regionEx [] = .ok (true, [("INDIA", 90)]) := by decide!
  rw [e1] at h1
  injection h1 with h1
  injection h1 with _ h1
  subst h1
  refine ⟨_, twice, e1, h2, by decide, ?_, ?_⟩
  · rw [h5 "INDIA"]; decide!
  · rw [h5 "CHINA"]; decide!

/-! ## Region resolver, merge step and nation maps -/

theorem resolveRegion_no_match (r_name : String) (post : Table) (init : String)
    (hf : ∀ x ∈ post, hasFields x ["r_regionkey", "r_name"] = true)
    (hpost : ∀ x ∈ post, mapFind x "r_name" ≠ some r_name) :
    resolveRegion r_name post init = .ok init := by
  induction post with
  | nil => rfl
  | cons x rest ih =>
    obtain ⟨n, hn⟩ := hasFields_find (hf x (List.mem_cons_self _ _)) (f := "r_name") (by simp)
    have hne : n ≠ r_name := by
      intro h
      exact hpost x (List.mem_cons_self _ _) (by rw [hn, h])
    rw [resolveRegion, mapAt_of_find hn]
    simp only [bind, Except.bind]
    rw [if_neg hne]
    exact ih (fun y hy => hf y (List.mem_cons_of_mem _ hy))
      (fun y hy => hpost y (List.mem_cons_of_mem _ hy))

theorem resolveRegion_last (r_name : String) (pre post : Table) (r : Row) (key init : String)
    (hf : ∀ x ∈ pre ++ r :: post, hasFields x ["r_regionkey", "r_name"] = true)
    (hname : mapFind r "r_name" = some r_name) (hkey : mapFind r "r_regionkey" = some key)
    (hpost : ∀ x ∈ post, mapFind x "r_name" ≠ some r_name) :
    resolveRegion r_name (pre ++ r :: post) init = .ok key := by
  induction pre generalizing init with
  | nil =>
    rw [List.nil_append, resolveRegion, mapAt_of_find hname]
    simp only [bind, Except.bind, if_true]
    rw [mapAt_of_find hkey]
    exact resolveRegion_no_match r_name post key
      (fun y hy => hf y (by simp [hy])) hpost
  | cons x rest ih =>
    have hx := hf x (by simp)
    obtain ⟨n, hn⟩ := hasFields_find hx (f := "r_name") (by simp)
    obtain ⟨k, hk⟩ := hasFields_find hx (f := "r_regionkey") (by simp)
    have hrest : ∀ y ∈ rest ++ r :: post, hasFields y ["r_regionkey", "r_name"] = true :=
      fun y hy => hf y (by rw [List.cons_append]; exact List.mem_cons_of_mem _ hy)
    rw [List.cons_append, resolveRegion, mapAt_of_find hn]
    simp only [bind, Except.bind]
    by_cases hm : n = r_name
    · rw [if_pos hm, mapAt_of_find hk]
      exact ih k hrest
    · rw [if_neg hm]
      exact ih init hrest

/-- C13 (region resolver, last match wins): for every region table whose rows carry both
fields and in which one or several rows have the requested name, the scan resolves
the name to the `r_regionkey` of the last such row in table order, and this is the key
`executeQuery5` uses: the call has the same outcome as on the region table reduced to
that last row. -/
theorem last_match_wins (stod : String → Option ℚ) (r_name start_date end_date : String)
    (num_threads : Int)
    (customer_data orders_data lineitem_data supplier_data nation_data : Table)
    (pre post : Table) (r : Row) (key : String) (results : Results)
    (hf : ∀ x ∈ pre ++ r :: post, hasFields x ["r_regionkey", "r_name"] = true)
    (hname : mapFind r "r_name" = some r_name) (hkey : mapFind r "r_regionkey" = some key)
    (hpost : ∀ x ∈ post, mapFind x "r_name" ≠ some r_name) :
    resolveRegion r_name (pre ++ r :: post) "" = .ok key ∧
    executeQuery5 stod r_name start_date end_date num_threads customer_data orders_data
        lineitem_data supplier_data nation_data (pre ++ r :: post) results
      = executeQuery5 stod r_name start_date end_date num_threads customer_data orders_data
          lineitem_data supplier_data nation_data [r] results := by
  have h1 := resolveRegion_last r_name pre post r key "" hf hname hkey hpost
  have h2 : resolveRegion r_name [r] "" = .ok key :=
    resolveRegion_last r_name [] [] r key "" (fun x hx => hf x (by
      simp only [List.nil_append, List.mem_singleton] at hx
      simp [hx])) hname hkey (fun x hx => absurd hx (List.not_mem_nil _))
  refine ⟨h1, ?_⟩
  unfold executeQuery5
  rw [h1, h2]

/-- C13, concrete run: two rows are named `ASIA`, with keys `2` and `4`; the key used is
`4`, that of the later row. -/
theorem last_match_wins_witness :
    resolveRegion "ASIA"
      ([[("r_regionkey", "2"), ("r_name", "ASIA")]] ++ [("r_regionkey", "4"), ("r_name", "ASIA")]
        :: [[("r_regionkey", "3"), ("r_name", "EUROPE")]]) "" = .ok "4" :=
  (last_match_wins stodDecimal "ASIA" "1994-01-01" "1995-01-01" 1 customerEx ordersEx
    lineitemEx supplierEx nationEx [[("r_regionkey", "2"), ("r_name", "ASIA")]]
    [[("r_regionkey", "3"), ("r_name", "EUROPE")]] [("r_regionkey", "4"), ("r_name", "ASIA")]
    "4" [] (by decide!) (by decide) (by decide) (by decide!)).1

theorem keyTotal_perm {cs cs' : List (String × ℚ)} (h : cs.Perm cs') (X : String) :
    keyTotal cs X = keyTotal cs' X := by
  unfold keyTotal
  exact ((h.filter _).map _).sum_eq

theorem mergeInto_perm {shared : Results} (hS : Sorted shared) {cs cs' : List (String × ℚ)}
    (h : cs.Perm cs') : mergeInto shared cs = mergeInto shared cs' := by
  apply sorted_ext (mergeInto_sorted hS cs) (mergeInto_sorted hS cs')
  intro j
  rw [mapFind_mergeInto hS, mapFind_mergeInto hS, keyTotal_perm h j]
  have hiff : (∃ e ∈ cs, e.1 = j) ↔ ∃ e ∈ cs', e.1 = j :=
    ⟨fun ⟨e, he, hj⟩ => ⟨e, h.mem_iff.1 he, hj⟩, fun ⟨e, he, hj⟩ => ⟨e, h.mem_iff.2 he, hj⟩⟩
  by_cases hc : ∃ e ∈ cs, e.1 = j
  · rw [if_pos hc, if_pos (hiff.1 hc)]
  · rw [if_neg hc, if_neg (fun hh => hc (hiff.2 hh))]

theorem mergeAll_eq_flatten (shared : Results) (locals : List Results) :
    mergeAll shared locals = mergeInto shared locals.flatten := by
  induction locals generalizing shared with
  | nil => rfl
  | cons l rest ih =>
    have step : mergeAll shared (l :: rest) = mergeAll (mergeInto shared l) rest := rfl
    rw [step, ih, List.flatten_cons, mergeInto_append]

/-- C14 (scheduling-order determinism of the merge): for every shared map and every
family of worker-local accumulators, executing the merge steps of the workers in any
permuted order leaves the same final shared map, with the same keys and the same
totals over exact arithmetic. The shared map is taken to be a `std::map` (sorted
keys). -/
theorem merge_order_irrelevant (shared : Results) (locals locals' : List Results)
    (hS : Sorted shared) (hp : locals.Perm locals') :
    mergeAll shared locals = mergeAll shared locals' := by
  rw [mergeAll_eq_flatten, mergeAll_eq_flatten]
  exact mergeInto_perm hS hp.flatten

/-- C14, concrete run: two workers merging in either order. -/
theorem merge_order_irrelevant_witness :
    mergeAll [("CHINA", 5)] [[("INDIA", 90)], [("CHINA", 1), ("INDIA", 2)]]
      = mergeAll [("CHINA", 5)] [[("CHINA", 1), ("INDIA", 2)], [("INDIA", 90)]] :=
  merge_order_irrelevant [("CHINA", 5)] [[("INDIA", 90)], [("CHINA", 1), ("INDIA", 2)]]
    [[("CHINA", 1), ("INDIA", 2)], [("INDIA", 90)]] (by unfold Sorted; simp)
    (List.Perm.swap _ _ _)

/-- C18 (merge step of `queryWorker`): for every shared map and every worker-local
accumulator, after the merge the shared value under each key present locally is its
previous shared value (`0` if the key was absent) plus the local value, every key not
present locally keeps its previous binding, and no key is removed. Both maps are
taken to be `std::map`s (sorted keys). -/
theorem merge_step (shared local_results : Results) (hS : Sorted shared)
    (hL : Sorted local_results) (k : String) :
    (∀ v, mapFind local_results k = some v →
      mapFind (mergeInto shared local_results) k = some ((mapFind shared k).getD 0 + v)) ∧
    (mapFind local_results k = none →
      mapFind (mergeInto shared local_results) k = mapFind shared k) ∧
    (mapFind shared k ≠ none → mapFind (mergeInto shared local_results) k ≠ none) := by
  have hfind := mapFind_mergeInto hS local_results k
  have hkey := mem_key_iff_mapFind local_results k
  refine ⟨?_, ?_, ?_⟩
  · intro v hv
    have hc : ∃ e ∈ local_results, e.1 = k := hkey.2 (by rw [hv]; simp)
    rw [hfind, if_pos hc, keyTotal_sorted hL, hv]
    rfl
  · intro hnone
    have hc : ¬ ∃ e ∈ local_results, e.1 = k := fun hh => hkey.1 hh hnone
    rw [hfind, if_neg hc]
  · intro hk
    rw [hfind]
    by_cases hc : ∃ e ∈ local_results, e.1 = k
    · rw [if_pos hc]; simp
    · rw [if_neg hc]; exact hk

/-- C18, concrete run: `INDIA` is added to, `JAPAN` is created, `CHINA` is kept. -/
theorem merge_step_witness :
    mapFind (mergeInto [("CHINA", 5), ("INDIA", 10)] [("INDIA", 90), ("JAPAN", 7)]) "INDIA"
      = some ((mapFind [("CHINA", (5 : ℚ)), ("INDIA", 10)] "INDIA").getD 0 + 90) :=
  (merge_step [("CHINA", 5), ("INDIA", 10)] [("INDIA", 90), ("JAPAN", 7)]
    (by unfold Sorted; simp; decide!) (by unfold Sorted; simp; decide!) "INDIA").1 90
    (by decide)

/-- C19 (the nation-name lookup cannot fail): for every nation table whose rows carry
`n_nationkey`, `n_name` and `n_regionkey`, the nation loop of `executeQuery5` builds the
name map and the region map with the same key set, so whenever the region map has an
entry for a nation key, as it must for a line item to pass the region check,
`nation_to_name.at` of that key succeeds. -/
theorem nation_lookup_succeeds (nation_data : Table)
    (hf : ∀ n ∈ nation_data, hasFields n ["n_nationkey", "n_name", "n_regionkey"] = true) :
    ∃ nation_to_name nation_to_region,
      buildNation nation_data ([], []) = .ok (nation_to_name, nation_to_region) ∧
      (∀ k, mapCount nation_to_name k = mapCount nation_to_region k) ∧
      ∀ k target_r_key, mapCount nation_to_region k = true →
        mapAt nation_to_region k = .ok target_r_key →
        ∃ name, mapAt nation_to_name k = .ok name := by
  obtain ⟨⟨n2name, n2region⟩, hb, hkeys⟩ := buildNation_ok nation_data hf ([], [])
    (fun _ => rfl)
  refine ⟨n2name, n2region, hb, hkeys, ?_⟩
  intro k target hcount _
  have hc : mapCount n2name k = true := by rw [hkeys k]; exact hcount
  obtain ⟨name, hname⟩ := find_of_count hc
  exact ⟨name, mapAt_of_find hname⟩

/-- C19, concrete run: the one-row nation table gives both maps the key `8`. -/
theorem nation_lookup_succeeds_witness :
    ∃ nation_to_name nation_to_region,
      buildNation nationEx ([], []) = .ok (nation_to_name, nation_to_region) ∧
      ∀ k, mapCount nation_to_name k = mapCount nation_to_region k := by
  obtain ⟨n2name, n2region, h1, h2, _⟩ := nation_lookup_succeeds nationEx (by decide!)
  exact ⟨n2name, n2region, h1, h2⟩

/-! ## Chunks -/

theorem covers_le {a size : Nat} {chunks : List (Int × Int)} (h : covers a chunks size) :
    a ≤ size := by
  induction chunks generalizing a with
  | nil => exact le_of_eq h
  | cons ch rest ih =>
    obtain ⟨s, e⟩ := ch
    obtain ⟨_, b, _, hab, _, hrest⟩ := h
    exact le_trans (le_of_lt hab) (ih hrest)

theorem covers_bounds {a size : Nat} {chunks : List (Int × Int)} (h : covers a chunks size) :
    ∀ ch ∈ chunks, (a : Int) ≤ ch.1 ∧ ch.1 < ch.2 ∧ ch.2 ≤ (size : Int) := by
  induction chunks generalizing a with
  | nil => intro ch hch; exact absurd hch (List.not_mem_nil _)
  | cons c rest ih =>
    obtain ⟨s, e⟩ := c
    obtain ⟨hs, b, he, hab, hb, hrest⟩ := h
    intro ch hch
    rcases List.mem_cons.1 hch with h1 | h1
    · subst h1
      simp only
      omega
    · obtain ⟨h2, h3, h4⟩ := ih hrest ch h1
      exact ⟨by omega, h3, h4⟩

theorem covers_pairwise {a size : Nat} {chunks : List (Int × Int)}
    (h : covers a chunks size) : chunks.Pairwise (fun x y => x.2 ≤ y.1) := by
  induction chunks generalizing a with
  | nil => exact List.Pairwise.nil
  | cons c rest ih =>
    obtain ⟨s, e⟩ := c
    obtain ⟨hs, b, he, hab, hb, hrest⟩ := h
    refine List.pairwise_cons.2 ⟨?_, ih hrest⟩
    intro y hy
    have := (covers_bounds hrest y hy).1
    simp only
    omega

theorem covers_count {a size : Nat} {chunks : List (Int × Int)} (h : covers a chunks size)
    (i : Nat) :
    (chunks.filter (fun ch => decide (ch.1 ≤ (i : Int) ∧ (i : Int) < ch.2))).length
      = if a ≤ i ∧ i < size then 1 else 0 := by
  induction chunks generalizing a with
  | nil =>
    have ha : a = size := h
    subst ha
    rw [if_neg (by omega)]
    rfl
  | cons c rest ih =>
    obtain ⟨s, e⟩ := c
    obtain ⟨hs, b, he, hab, hb, hrest⟩ := h
    have hb2 := covers_le hrest
    rw [List.filter_cons]
    by_cases hin : s ≤ (i : Int) ∧ (i : Int) < e
    · rw [if_pos (by simpa using hin), List.length_cons, ih hrest, if_neg (by omega),
        if_pos (by omega)]
    · rw [if_neg (by simpa using hin), ih hrest]
      by_cases h2 : b ≤ i ∧ i < size
      · rw [if_pos h2, if_pos (by omega)]
      · rw [if_neg h2, if_neg (by omega)]

/-- C16 (chunks partition the line-item table): for every thread count `≥ 1` and every
line-item count, the ranges handed to the workers that `executeQuery5` starts are
contiguous from `0` to the count, each non-empty and within the table, pairwise
disjoint in creation order, and every line-item index lies in exactly one of them;
with an empty table no worker is started. The count is taken to fit `int`. -/
theorem chunks_partition (size : Nat) (num_threads : Int) (hT : 1 ≤ num_threads)
    (hT2 : num_threads < 2 ^ 31) (hN : size < 2 ^ 31) :
    ∃ chunk_size, chunkSize size num_threads = .ok chunk_size ∧
      covers 0 (spawnLoop size num_threads chunk_size num_threads.toNat 0) size ∧
      (∀ ch ∈ spawnLoop size num_threads chunk_size num_threads.toNat 0,
        0 ≤ ch.1 ∧ ch.1 < ch.2 ∧ ch.2 ≤ (size : Int)) ∧
      (spawnLoop size num_threads chunk_size num_threads.toNat 0).Pairwise
        (fun x y => x.2 ≤ y.1) ∧
      (∀ i : Nat, i < size →
        ((spawnLoop size num_threads chunk_size num_threads.toNat 0).filter
          (fun ch => decide (ch.1 ≤ (i : Int) ∧ (i : Int) < ch.2))).length = 1) ∧
      (size = 0 → spawnLoop size num_threads chunk_size num_threads.toNat 0 = []) := by
  obtain ⟨c, hc, hcov⟩ := spawnLoop_covers hT hT2 hN
  refine ⟨c, hc, hcov, ?_, covers_pairwise hcov, ?_, ?_⟩
  · intro ch hch
    have := covers_bounds hcov ch hch
    exact ⟨by simpa using this.1, this.2.1, this.2.2⟩
  · intro i hi
    rw [covers_count hcov i, if_pos ⟨Nat.zero_le _, hi⟩]
  · intro h0
    cases hl : spawnLoop size num_threads c num_threads.toNat 0 with
    | nil => rfl
    | cons ch rest =>
      have := covers_bounds hcov ch (by rw [hl]; exact List.mem_cons_self _ _)
      omega

/-- C16, concrete run: ten line items and three threads give the ranges `0..3`, `3..6`
and `6..10`. -/
theorem chunks_partition_witness :
    ∃ chunk_size, chunkSize 10 3 = .ok chunk_size ∧
      covers 0 (spawnLoop 10 3 chunk_size 3 0) 10 ∧
      spawnLoop 10 3 3 3 0 = [(0, 3), (3, 6), (6, 10)] := by
  obtain ⟨c, h1, h2, _⟩ := chunks_partition 10 3 (by decide) (by decide) (by decide)
  exact ⟨c, h1, h2, by decide!⟩

theorem spawnLoop_eq_map (size t c : Nat) (hc : 1 ≤ c) (htc : t * c ≤ size)
    (hN : size < 2 ^ 31) (n i : Nat) (hi : i + n = t) :
    spawnLoop size (t : Int) (c : Int) n (i : Int)
      = (List.range' i n).map (fun j : Nat =>
          (((j * c : Nat) : Int),
            if j + 1 = t then (size : Int) else (((j + 1) * c : Nat) : Int))) := by
  induction n generalizing i with
  | zero => rfl
  | succ n ih =>
    have h1 : i * c + c ≤ t * c := by
      have : (i + 1) * c ≤ t * c := Nat.mul_le_mul_right c (by omega)
      calc i * c + c = (i + 1) * c := by ring
        _ ≤ t * c := this
    have h2 : (i + 1) * c = i * c + c := by ring
    have hlt : i * c < size := by omega
    have hstart : toInt ((i : Int) * (c : Int)) = ((i * c : Nat) : Int) := by
      rw [← Nat.cast_mul]; exact toInt_natCast (by omega)
    have hend : toInt (((i : Int) + 1) * (c : Int)) = (((i + 1) * c : Nat) : Int) := by
      have : ((i : Int) + 1) * (c : Int) = (((i + 1) * c : Nat) : Int) := by push_cast; ring
      rw [this]; exact toInt_natCast (by omega)
    have hnext : (i : Int) + 1 = ((i + 1 : Nat) : Int) := by push_cast; ring
    have hcond : ((i : Int) = (t : Int) - 1) ↔ (i + 1 = t) := by omega
    rw [spawnLoop, List.range'_succ, List.map_cons]
    simp only [hstart, toSizeT_natCast (show i * c < 2 ^ 64 by omega), if_neg (not_le.2 hlt),
      hend, toInt_natCast hN, hcond]
    rw [hnext, ih (i + 1) (by omega)]

/-- C17 (chunk sizes): for every line-item count `N` and thread count `T` with
`1 ≤ T ≤ N`, the chunk size is `⌊N / T⌋`, `executeQuery5` starts exactly `T` workers,
worker `i` with `i < T - 1` gets the range from `i * ⌊N / T⌋` to `(i + 1) * ⌊N / T⌋`, and
the last worker gets the range from `(T - 1) * ⌊N / T⌋` to `N`, whose size is `⌊N / T⌋`
plus the remainder `N mod T`. The count is taken to fit `int`. -/
theorem chunk_sizes (size : Nat) (num_threads : Int) (hT : 1 ≤ num_threads)
    (hTN : num_threads ≤ (size : Int)) (hN : size < 2 ^ 31) :
    chunkSize size num_threads = .ok ((size / num_threads.toNat : Nat) : Int) ∧
    spawnLoop size num_threads ((size / num_threads.toNat : Nat) : Int) num_threads.toNat 0
      = (List.range num_threads.toNat).map (fun i : Nat =>
          (((i * (size / num_threads.toNat) : Nat) : Int),
            if i + 1 = num_threads.toNat then (size : Int)
            else (((i + 1) * (size / num_threads.toNat) : Nat) : Int))) ∧
    (spawnLoop size num_threads ((size / num_threads.toNat : Nat) : Int)
      num_threads.toNat 0).length = num_threads.toNat ∧
    size - (num_threads.toNat - 1) * (size / num_threads.toNat)
      = size / num_threads.toNat + size % num_threads.toNat := by
  obtain ⟨t, rfl⟩ := Int.eq_ofNat_of_zero_le (le_trans (by norm_num) hT)
  have ht1 : 1 ≤ t := by omega
  have htN : t ≤ size := by omega
  have hc1 : 1 ≤ size / t := (Nat.one_le_div_iff (by omega)).2 htN
  have hmap := spawnLoop_eq_map size t (size / t) hc1 (Nat.mul_div_le size t) hN t 0 (by omega)
  simp only [Int.toNat_ofNat]
  refine ⟨?_, ?_, ?_, ?_⟩
  · rw [chunkSize_eq hT (by omega) hN]
    simp only [Int.toNat_ofNat]
    rw [if_neg (by omega)]
  · rw [List.range_eq_range']
    exact_mod_cast hmap
  · have h0 : spawnLoop size (t : Int) ((size / t : Nat) : Int) t 0
        = spawnLoop size (t : Int) ((size / t : Nat) : Int) t ((0 : Nat) : Int) := by
      simp
    rw [h0, hmap]
    simp
  · have h1 : t * (size / t) + size % t = size := Nat.div_add_mod size t
    obtain ⟨m, rfl⟩ : ∃ m, t = m + 1 := ⟨t - 1, by omega⟩
    have h2 : (m + 1) * (size / (m + 1)) = m * (size / (m + 1)) + size / (m + 1) := by ring
    simp only [Nat.add_sub_cancel]
    omega

/-- C17, concrete run: ten line items and three threads. -/
theorem chunk_sizes_witness :
    spawnLoop 10 3 ((10 / (3 : Int).toNat : Nat) : Int) (3 : Int).toNat 0
      = (List.range (3 : Int).toNat).map (fun i : Nat =>
          (((i * (10 / (3 : Int).toNat) : Nat) : Int),
            if i + 1 = (3 : Int).toNat then ((10 : Nat) : Int)
            else (((i + 1) * (10 / (3 : Int).toNat) : Nat) : Int))) :=
  (chunk_sizes 10 3 (by decide) (by decide) (by decide)).2.1

/-! ## Field splitting and trimming -/

theorem firstErase_eq_dropWhile (t : List Char) :
    (match findFirstNotOf t with
      | some first => t.drop first
      | none => []) = t.dropWhile isTrimChar := by
  induction t with
  | nil => rfl
  | cons c cs ih =>
    by_cases hc : isTrimChar c = true
    · simp only [findFirstNotOf, if_pos hc, List.dropWhile_cons_of_pos hc]
      cases hf : findFirstNotOf cs with
      | none => rw [hf] at ih; exact ih
      | some n => rw [hf] at ih; exact ih
    · simp only [findFirstNotOf, if_neg hc, List.dropWhile_cons_of_neg hc]
      rfl

theorem findLastNotOf_none {t : List Char} (h : findLastNotOf t = none) :
    ∀ c ∈ t, isTrimChar c = true := by
  induction t with
  | nil => intro c hc; exact absurd hc (List.not_mem_nil _)
  | cons x xs ih =>
    rw [findLastNotOf] at h
    cases hl : findLastNotOf xs with
    | some i => rw [hl] at h; exact Option.noConfusion h
    | none =>
      rw [hl] at h
      by_cases hx : isTrimChar x = true
      · intro c hc
        rcases List.mem_cons.1 hc with h1 | h1
        · rw [h1]; exact hx
        · exact ih hl c h1
      · simp only [if_neg hx] at h
        exact Option.noConfusion h

theorem findLastNotOf_some {t : List Char} {i : Nat} (h : findLastNotOf t = some i) :
    (∃ y, (t.take (i + 1)).getLast? = some y ∧ isTrimChar y = false) ∧
    ∀ c ∈ t.drop (i + 1), isTrimChar c = true := by
  induction t generalizing i with
  | nil => exact Option.noConfusion h
  | cons x xs ih =>
    rw [findLastNotOf] at h
    cases hl : findLastNotOf xs with
    | some j =>
      rw [hl] at h
      injection h with h
      subst h
      obtain ⟨⟨y, hy, hty⟩, hdrop⟩ := ih hl
      refine ⟨⟨y, ?_, hty⟩, ?_⟩
      · rw [List.take_succ_cons, List.getLast?_cons, hy]
        rfl
      · rw [List.drop_succ_cons]
        exact hdrop
    | none =>
      rw [hl] at h
      by_cases hx : isTrimChar x = true
      · simp only [if_pos hx] at h
        exact Option.noConfusion h
      · simp only [if_neg hx] at h
        injection h with h
        subst h
        refine ⟨⟨x, by simp, by simpa using hx⟩, ?_⟩
        simp only [Nat.zero_add, List.drop_succ_cons, List.drop_zero]
        exact findLastNotOf_none hl

theorem dropWhile_append_of_all {p : Char → Bool} {a l : List Char}
    (h : ∀ c ∈ a, p c = true) : (a ++ l).dropWhile p = l.dropWhile p := by
  induction a with
  | nil => rfl
  | cons x xs ih =>
    rw [List.cons_append, List.dropWhile_cons_of_pos (h x (List.mem_cons_self _ _))]
    exact ih (fun c hc => h c (List.mem_cons_of_mem _ hc))

theorem dropWhile_of_all {p : Char → Bool} {a : List Char} (h : ∀ c ∈ a, p c = true) :
    a.dropWhile p = [] := by
  have := dropWhile_append_of_all (l := []) h
  simpa using this

theorem rdropWhile_append_of_all {p : Char → Bool} {l b : List Char}
    (h : ∀ c ∈ b, p c = true) : (l ++ b).rdropWhile p = l.rdropWhile p := by
  unfold List.rdropWhile
  rw [List.reverse_append, dropWhile_append_of_all (fun c hc => h c (List.mem_reverse.1 hc))]

/-- The trimmed token is the field without its leading and trailing characters of the
set, and it is empty or begins and ends outside the set. -/
theorem trimToken_eq_trimSpec (t : List Char) :
    trimToken t = trimSpec t ∧
    (trimToken t = [] ∨ ∃ x y, (trimToken t).head? = some x ∧ (trimToken t).getLast? = some y ∧
      isTrimChar x = false ∧ isTrimChar y = false) := by
  unfold trimToken trimSpec
  simp only [firstErase_eq_dropWhile]
  cases hl : findLastNotOf (t.dropWhile isTrimChar) with
  | none =>
    have hall := findLastNotOf_none hl
    have hnil : t.dropWhile isTrimChar = [] := by
      cases hd : t.dropWhile isTrimChar with
      | nil => rfl
      | cons x xs =>
        have h1 := List.head?_dropWhile_not isTrimChar t
        rw [hd] at h1 hall
        simp only [List.head?_cons] at h1
        have h2 := hall x (List.mem_cons_self _ _)
        simp [h2] at h1
    simp only [hnil]
    constructor
    · simp [List.rdropWhile]
    · simp
  | some i =>
    obtain ⟨⟨y, hy, hty⟩, hdrop⟩ := findLastNotOf_some hl
    simp only
    have hsplit : t.dropWhile isTrimChar
        = (t.dropWhile isTrimChar).take (i + 1) ++ (t.dropWhile isTrimChar).drop (i + 1) :=
      (List.take_append_drop _ _).symm
    have hne : (t.dropWhile isTrimChar).take (i + 1) ≠ [] := by
      intro h0
      rw [h0] at hy
      exact Option.noConfusion hy
    have hself : ((t.dropWhile isTrimChar).take (i + 1)).rdropWhile isTrimChar
        = (t.dropWhile isTrimChar).take (i + 1) := by
      rw [List.rdropWhile_eq_self_iff]
      intro hl'
      have h1 := List.getLast?_eq_getLast _ hl'
      rw [hy] at h1
      injection h1 with h1
      rw [← h1, hty]
      simp
    constructor
    · conv_rhs => rw [hsplit, rdropWhile_append_of_all hdrop, hself]
    · right
      cases hd : t.dropWhile isTrimChar with
      | nil => rw [hd] at hne; exact absurd rfl hne
      | cons x xs =>
        have h1 := List.head?_dropWhile_not isTrimChar t
        rw [hd] at h1 hy
        simp only [List.head?_cons] at h1
        refine ⟨x, y, by simp, hy, ?_, hty⟩
        simpa using h1

theorem dropFinalEmpty_cons (a : List Char) {l : List (List Char)} (hl : l ≠ []) :
    dropFinalEmpty (a :: l) = a :: dropFinalEmpty l := by
  unfold dropFinalEmpty
  obtain ⟨b, l', rfl⟩ := List.exists_cons_of_ne_nil hl
  rw [List.getLast?_cons_cons]
  split
  · rw [List.dropLast_cons₂]
  · rfl

/-- The tokens read by the `getline` loop are the `|`-delimited pieces of the input,
without a final empty piece. -/
theorem getlineLoop_eq_splitOnP (cs token : List Char) :
    getlineLoop cs token
      = dropFinalEmpty ((cs.splitOnP (· == '|')).modifyHead (token ++ ·)) := by
  induction cs generalizing token with
  | nil =>
    simp only [getlineLoop, List.splitOnP_nil, List.modifyHead, List.append_nil, dropFinalEmpty]
    by_cases ht : token = []
    · subst ht; simp
    · rw [if_neg ht, if_neg (by simpa using ht)]
  | cons c rest ih =>
    rw [getlineLoop, List.splitOnP_cons]
    by_cases hc : c = '|'
    · subst hc
      have h1 : (('|' == '|') : Bool) = true := by decide
      rw [if_pos rfl, if_pos h1, ih []]
      have hmh : (rest.splitOnP (· == '|')).modifyHead ([] ++ ·)
          = rest.splitOnP (· == '|') := by
        cases rest.splitOnP (· == '|') with
        | nil => rfl
        | cons a l => simp [List.modifyHead]
      rw [hmh, List.modifyHead_cons, List.append_nil,
        dropFinalEmpty_cons token (List.splitOnP_ne_nil _ _)]
    · have h1 : ¬ ((c == '|') = true) := by simpa using hc
      rw [if_neg hc, if_neg h1, ih (token ++ [c]), List.modifyHead_modifyHead]
      congr 2
      funext x
      simp

/-- C15 (field trimming in `splitAndTrim`): for every input line, the tokens returned are,
in order, the `|`-delimited fields that the stream yields, each with all leading and
trailing characters of the set space, tab, carriage return, newline removed; every
returned token is empty or begins and ends with a character outside that set; and a
field made only of characters of the set gives the empty token. -/
theorem splitAndTrim_trims (line : String) :
    splitAndTrim line
      = (dropFinalEmpty (line.data.splitOn '|')).map (fun field => String.mk (trimSpec field)) ∧
    (∀ token ∈ splitAndTrim line, token = "" ∨
      ∃ x y, token.data.head? = some x ∧ token.data.getLast? = some y ∧
        isTrimChar x = false ∧ isTrimChar y = false) ∧
    (∀ (i : Nat) (field : List Char) (token : String), (dropFinalEmpty (line.data.splitOn '|'))[i]? = some field →
      (splitAndTrim line)[i]? = some token → (∀ c ∈ field, isTrimChar c = true) →
      token = "") := by
  have hraw : getlineLoop line.data [] = dropFinalEmpty (line.data.splitOn '|') := by
    rw [getlineLoop_eq_splitOnP]
    have hmh : (line.data.splitOnP (· == '|')).modifyHead ([] ++ ·)
        = line.data.splitOnP (· == '|') := by
      cases line.data.splitOnP (· == '|') with
      | nil => rfl
      | cons a l => simp [List.modifyHead]
    rw [hmh]
    rfl
  have hmain : splitAndTrim line
      = (dropFinalEmpty (line.data.splitOn '|')).map
          (fun field => String.mk (trimSpec field)) := by
    unfold splitAndTrim
    rw [hraw]
    apply List.map_congr_left
    intro f _
    rw [(trimToken_eq_trimSpec f).1]
  refine ⟨hmain, ?_, ?_⟩
  · intro token htok
    unfold splitAndTrim at htok
    obtain ⟨raw, _, hraw2⟩ := List.mem_map.1 htok
    subst hraw2
    rcases (trimToken_eq_trimSpec raw).2 with h | h
    · left
      simp only [h]
    · right
      exact h
  · intro i field token hf ht hall
    rw [hmain, List.getElem?_map, hf] at ht
    simp only [Option.map_some'] at ht
    injection ht with ht
    subst ht
    unfold trimSpec
    rw [dropWhile_of_all hall]
    rfl

/-- C15, concrete run: blanks, a tab and a carriage return around the fields are
removed, the blank field gives the empty token, and nothing follows the closing `|`. -/
theorem splitAndTrim_trims_witness :
    splitAndTrim " 1 |ASIA\r|\t |" = ["1", "ASIA", ""] ∧
    splitAndTrim " 1 |ASIA\r|\t |"
      = (dropFinalEmpty (" 1 |ASIA\r|\t |".data.splitOn '|')).map
          (fun field => String.mk (trimSpec field)) :=
  ⟨by decide, (splitAndTrim_trims " 1 |ASIA\r|\t |").1⟩

end Query5
